import Mathlib

/-!
Shallow embedding of the SkillSync core pipeline
(`skill_extraction_multilingual.py`, `skill_normalization.py`,
`job_recommender.py`, `ml_module/ml_pipeline.py`) and proofs of the
specification claims about it.

Python-level conventions used throughout the embedding:
* Python `str.lower()` is modeled by mapping `Char.toLower` over the
  characters (all cased keywords in the tables are ASCII; Indic-script
  keywords are caseless, where both agree).
* Python `needle in hay` (substring containment) is modeled by
  `strContains hay needle`.
* Python's `sorted(..., key=k, reverse=True)` is a stable descending
  sort; it is modeled by the stable insertion sort `sortKD k`.
-/

namespace SkillSync

/-- Python `str.lower()` (ASCII case mapping; the scripts in the keyword
tables that fall outside ASCII are caseless, so both semantics agree). -/
def pyLower (s : String) : String := ⟨s.data.map Char.toLower⟩

/-- `beginsWith needle hay`: `needle` is a prefix of `hay` (character lists). -/
def beginsWith : List Char → List Char → Bool
  | [], _ => true
  | _ :: _, [] => false
  | a :: as, b :: bs => a == b && beginsWith as bs

/-- Auxiliary scan for substring containment. -/
def hasSubAux (needle : List Char) : List Char → Bool
  | [] => needle.isEmpty
  | c :: rest => beginsWith needle (c :: rest) || hasSubAux needle rest

/-- Python `needle in hay` for strings (substring containment).  This is
the semantics of the extractor's keyword matching; it is also the behavior
of a regular-expression search for a pattern free of regex metacharacters
(the literal case of the engine parameter `rePat` used by the pandas
`str.contains` call sites below). -/
def strContains (hay needle : String) : Bool := hasSubAux needle.data hay.data

theorem strContains_empty (hay : String) : strContains hay "" = true := by
  show hasSubAux [] hay.data = true
  cases hay.data <;> simp [hasSubAux, beginsWith, List.isEmpty]

/-- One step of stable descending insertion (by key): the inserted element
is placed before the first strictly-smaller element, after all
earlier elements with an equal or larger key. -/
def insKD {α β : Type} [LinearOrder β] (key : α → β) (x : α) : List α → List α
  | [] => [x]
  | y :: ys => if key x < key y then y :: insKD key x ys else x :: y :: ys

/-- Stable descending sort by key: the model of Python's
`sorted(..., key=key, reverse=True)` and of pandas `nlargest` ordering. -/
def sortKD {α β : Type} [LinearOrder β] (key : α → β) : List α → List α
  | [] => []
  | x :: xs => insKD key x (sortKD key xs)

theorem insKD_perm {α β : Type} [LinearOrder β] (key : α → β) (x : α) (l : List α) :
    (insKD key x l).Perm (x :: l) := by
  induction l with
  | nil => simp [insKD]
  | cons y ys ih =>
    by_cases h : key x < key y
    · simp only [insKD, if_pos h]
      exact ((ih.cons y).trans (List.Perm.swap x y ys))
    · simp [insKD, if_neg h]

theorem sortKD_perm {α β : Type} [LinearOrder β] (key : α → β) (l : List α) :
    (sortKD key l).Perm l := by
  induction l with
  | nil => simp [sortKD]
  | cons x xs ih =>
    exact ((insKD_perm key x (sortKD key xs)).trans (ih.cons x))

theorem mem_insKD {α β : Type} [LinearOrder β] (key : α → β) (x a : α) (l : List α) :
    a ∈ insKD key x l ↔ a = x ∨ a ∈ l := by
  rw [(insKD_perm key x l).mem_iff]; simp

theorem mem_sortKD {α β : Type} [LinearOrder β] (key : α → β) (a : α) (l : List α) :
    a ∈ sortKD key l ↔ a ∈ l := (sortKD_perm key l).mem_iff

theorem insKD_pairwise {α β : Type} [LinearOrder β] (key : α → β) (x : α) (l : List α)
    (h : l.Pairwise (fun a b => key b ≤ key a)) :
    (insKD key x l).Pairwise (fun a b => key b ≤ key a) := by
  induction l with
  | nil => simp [insKD]
  | cons y ys ih =>
    rcases List.pairwise_cons.mp h with ⟨hy, hys⟩
    by_cases hlt : key x < key y
    · simp only [insKD, if_pos hlt]
      refine List.pairwise_cons.mpr ⟨?_, ih hys⟩
      intro a ha
      rcases (mem_insKD key x a ys).mp ha with rfl | ha
      · exact le_of_lt hlt
      · exact hy a ha
    · simp only [insKD, if_neg hlt]
      refine List.pairwise_cons.mpr ⟨?_, h⟩
      intro a ha
      rcases List.mem_cons.mp ha with rfl | ha
      · exact le_of_not_lt hlt
      · exact le_trans (hy a ha) (le_of_not_lt hlt)

theorem sortKD_pairwise {α β : Type} [LinearOrder β] (key : α → β) (l : List α) :
    (sortKD key l).Pairwise (fun a b => key b ≤ key a) := by
  induction l with
  | nil => simp [sortKD]
  | cons x xs ih => exact insKD_pairwise key x _ ih

theorem sortKD_length {α β : Type} [LinearOrder β] (key : α → β) (l : List α) :
    (sortKD key l).length = l.length := (sortKD_perm key l).length_eq

theorem sortKD_pairwise_key {α β : Type} [LinearOrder β] (key : α → β) (l : List α) :
    ((sortKD key l).map key).Pairwise (· ≥ ·) :=
  (List.pairwise_map).mpr (sortKD_pairwise key l)

/-- Lexicographic comparison of character lists by code point (the order
Python uses to compare strings). -/
def lexLe : List Char → List Char → Bool
  | [], _ => true
  | _ :: _, [] => false
  | a :: as, b :: bs =>
    if a.toNat < b.toNat then true
    else if b.toNat < a.toNat then false
    else lexLe as bs

/-- Python string order. -/
def strLeB (a b : String) : Bool := lexLe a.data b.data

/-- Ascending insertion by `strLeB` (for the alphabetically ordered fitted
vocabulary of a `TfidfVectorizer`). -/
def insStr (x : String) : List String → List String
  | [] => [x]
  | y :: ys => if strLeB x y then x :: y :: ys else y :: insStr x ys

/-- Ascending sort of strings. -/
def sortStr : List String → List String
  | [] => []
  | x :: xs => insStr x (sortStr xs)

/-!
## `MultilingualSkillExtractor` (`skill_extraction_multilingual.py`)

One record per matched skill.  The Python dict also carries a
`category` field obtained by looking the skill up in the taxonomy CSV
(a data file, not source code); no claim mentions it, and it is
independent of the matching logic, so the record omits it.
-/

/-- One entry of the list returned by `extract_skills`. -/
structure Extracted where
  skill : String
  confidence : ℚ
  method : String
  matchedKeyword : String
deriving DecidableEq

/-- `self.multilingual_keywords`: insertion (dict) order preserved. -/
def multilingualKeywords : List (String × List String) := [
  ("Electrical Wiring", [
    "wiring", "wire", "electrical", "electric", "इलेक्ट्रिक", "वायरिंग",
    "மின்சாரம்", "வயரிங்", "విద్యుత్", "వైరింగ్", "ವಿದ್ಯುತ್", "ವೈರಿಂಗ್",
    "house wiring", "घर की वायरिंग", "வீட்டு வயரிங்"]),
  ("Fan Installation", [
    "fan", "पंखा", "விசிறி", "ఫ్యాన్", "ಫ್ಯಾನ್",
    "fan installation", "fan fitting", "पंखा लगाना"]),
  ("Switch Board Repair", [
    "switch", "board", "स्विच", "स्विच बोर्ड", "சுவிட்ச்", "స్విచ్", "ಸ್ವಿಚ್",
    "switchboard", "switch board"]),
  ("Motor Winding", [
    "motor", "winding", "मोटर", "वाइंडिंग", "மோட்டார்", "మోటార్", "ಮೋಟಾರ್",
    "motor repair", "motor winding"]),
  ("Pipe Fitting", [
    "pipe", "plumbing", "पाइप", "प्लंबिंग", "குழாய்", "పైప్", "ಪೈಪ್",
    "pipe fitting", "pipe work", "पाइप फिटिंग"]),
  ("Tap Repair", [
    "tap", "नल", "குழாய்", "కుళాయి", "ಟ್ಯಾಪ್",
    "tap repair", "नल की मरम्मत", "leak", "leakage"]),
  ("Arc Welding", [
    "weld", "welding", "वेल्डिंग", "வெல்டிங்", "వెల్డింగ్", "ವೆಲ್ಡಿಂಗ್",
    "arc welding"]),
  ("Steel Fabrication", [
    "steel", "fabrication", "स्टील", "फैब्रिकेशन", "இரும்பு", "ఉక్కు", "ಉಕ್ಕು",
    "steel work", "steel fabrication"]),
  ("Gate Making", [
    "gate", "गेट", "வாயில்", "గేట్", "ಗೇಟ್",
    "gate making", "gate work"]),
  ("Wood Cutting", [
    "wood cutting", "लकड़ी काटना", "மரம் வெட்டுதல்",
    "wood work", "wood", "लकड़ी", "மரம்", "చెక్క", "ಮರ"]),
  ("Furniture Making", [
    "furniture", "फर्नीचर", "பர்னிச்சர்", "ఫర్నిచర్", "ಪೀಠೋಪಕರಣ",
    "carpenter", "carpentry", "बढ़ई", "தச்சு", "వడ్రంగి", "ಬಡಗಿ",
    "furniture making", "फर्नीचर बनाना"]),
  ("Door Fitting", [
    "door", "दरवाजा", "கதவு", "తలుపు", "ಬಾಗಿಲು",
    "door fitting", "door installation", "दरवाजा लगाना", "கதவு பொருத்துதல்"]),
  ("Wall Painting", [
    "paint", "painting", "पेंटिंग", "रंग", "வண்ணம்", "పెయింటింగ్", "ಪೇಂಟಿಂಗ್",
    "wall paint", "house painting", "दीवार पेंटिंग"]),
  ("Color Mixing", [
    "color", "रंग", "வண்ணம்", "రంగు", "ಬಣ್ಣ",
    "color mixing"]),
  ("Vehicle Driving", [
    "drive", "driving", "driver", "ड्राइविंग", "ड्राइवर", "ஓட்டுதல்", "డ్రైవింగ్", "ಚಾಲನೆ",
    "car driving", "truck driving", "vehicle driving",
    "drive car", "drive truck", "drive vehicle", "drive all vehicle",
    "i work as driver", "work as driver"]),
  ("Dress Stitching", [
    "stitch", "stitching", "tailor", "सिलाई", "दर्जी", "தையல்", "కుట్టు", "ಹೊಲಿಗೆ",
    "dress", "cloth", "कपड़ा"]),
  ("Blouse Stitching", [
    "blouse", "ब्लाउज", "புடவை", "బ్లౌజ్", "ಬ್ಲೌಸ್"]),
  ("Saree Fall", [
    "saree", "साड़ी", "புடவை", "చీర", "ಸೀರೆ",
    "fall", "saree fall"]),
  ("Churidar Making", [
    "churidar", "चूड़ीदार", "சுரிதார்", "చుడిదార్", "ಚುಡಿದಾರ"]),
  ("General Repair", [
    "general repair", "मरम्मत", "பழுது", "రిపేర్", "ದುರಸ್ತಿ",
    "maintenance work", "general maintenance"]),
  ("Two Wheeler Repair", [
    "bike", "motorcycle", "scooter", "बाइक", "स्कूटर", "பைக்", "బైక్", "ಬೈಕ್",
    "two wheeler"]),
  ("Four Wheeler Repair", [
    "car repair", "vehicle repair", "कार मरम्मत", "गाड़ी मरम्मत",
    "four wheeler repair", "car mechanic", "vehicle mechanic",
    "auto mechanic", "automobile repair"]),
  ("Mobile Repair", [
    "mobile repair", "phone repair", "मोबाइल रिपेयर", "फोन रिपेयर",
    "mobile mechanic", "phone mechanic", "mobile fixing", "phone fixing",
    "cell phone repair", "smartphone repair",
    "iphone repair", "samsung repair", "android repair",
    "all icon", "all brands", "सभी ब्रांड",
    "mobile", "phone", "मोबाइल", "फोन", "மொபைல்", "ఫోన్", "ಮೊಬೈಲ್"]),
  ("Screen Replacement", [
    "screen replacement", "screen repair", "screen change",
    "display replacement", "display repair",
    "screen", "display", "स्क्रीन", "डिस्प्ले", "திரை", "స్క్రీన్", "ಪರದೆ"]),
  ("Battery Replacement", [
    "battery replacement", "battery change", "battery repair",
    "battery", "बैटरी", "பேட்டரி", "బ్యాటరీ", "ಬ್ಯಾಟರಿ"]),
  ("Software Troubleshooting", [
    "software issue", "software problem", "software troubleshooting",
    "software repair", "software fix", "software issues",
    "software", "सॉफ्टवेयर", "மென்பொருள்", "సాఫ్ట్‌వేర్", "ಸಾಫ್ಟ್‌ವೇರ್"]),
  ("Hair Cutting", [
    "hair", "haircut", "बाल", "हेयरकट", "முடி", "హెయిర్", "ಕೂದಲು",
    "hair cut", "हेयर कट", "ஹேர் கட்"]),
  ("Facial Treatment", [
    "facial", "फेशियल", "முக", "ఫేషియల్", "ಫೇಶಿಯಲ್",
    "face treatment"]),
  ("Makeup", [
    "makeup", "मेकअप", "ஒப்பனை", "మేకప్", "ಮೇಕಪ್",
    "make up", "मेक अप"]),
  ("Beauty Parlor", [
    "beauty", "parlor", "parlour", "salon", "ब्यूटी", "पार्लर",
    "அழகு", "సెలూన్", "ಬ್ಯೂಟಿ", "ಪಾರ್ಲರ್"])]

/-- `max(len(kw) for kw in keywords)` (every keyword list is nonempty, so
folding from `0` agrees with Python's `max`). -/
def maxKwLen (p : String × List String) : Nat := (p.2.map String.length).foldr max 0

/-- `sorted(self.multilingual_keywords.items(), key=..., reverse=True)`. -/
def sortedSkills : List (String × List String) := sortKD maxKwLen multilingualKeywords

/-- The inner loop: keywords longest-first, first substring hit wins
(`break` after the first matching keyword). -/
def firstKwMatch (textLower : String) (kws : List String) : Option String :=
  (sortKD String.length kws).find? (fun kw => strContains textLower (pyLower kw))

/-- The extraction loop of `extract_skills` over the priority-sorted skill
table, with the `seen_skills` set threaded through. -/
def extractLoop (textLower : String) : List (String × List String) → List String → List Extracted
  | [], _ => []
  | (name, kws) :: rest, seen =>
    match firstKwMatch textLower kws with
    | some kw =>
      if name ∈ seen then extractLoop textLower rest seen
      else ⟨name, 95/100, "multilingual_keyword", kw⟩ :: extractLoop textLower rest (name :: seen)
    | none => extractLoop textLower rest seen

/-- `extract_skills` before `_filter_general_skills` is applied. -/
def extractRaw (text : String) : List Extracted :=
  extractLoop (pyLower text) sortedSkills []

/-- The `specific_repairs` list of `_filter_general_skills`. -/
def specificRepairs : List String :=
  ["Mobile Repair", "Two Wheeler Repair", "Four Wheeler Repair",
   "Electrical Wiring", "Pipe Fitting", "Tap Repair"]

/-- First rule of `_filter_general_skills`: drop `'General Repair'` when a
specific repair skill is present.  Both membership tests run against
`skill_names`, which Python computes from the input list. -/
def filterStage1 (names : List String) (skills : List Extracted) : List Extracted :=
  if "General Repair" ∈ names ∧ specificRepairs.any (fun s => names.contains s) then
    skills.filter (fun s => s.skill != "General Repair")
  else skills

/-- Second rule of `_filter_general_skills`: drop `'Four Wheeler Repair'`
when `'Vehicle Driving'` was matched through a keyword containing
`"drive"`.  The guard tests membership in the original `skill_names`;
`next(...)` runs over the possibly already-filtered list (it cannot fail
when the guard holds, and the unreachable fallback leaves the list
unchanged).  The unused `repair_skill` binding of the Python code is
dropped. -/
def filterStage2 (names : List String) (skills₁ : List Extracted) : List Extracted :=
  if "Vehicle Driving" ∈ names ∧ "Four Wheeler Repair" ∈ names then
    match skills₁.find? (fun s => s.skill == "Vehicle Driving") with
    | some d =>
      if strContains (pyLower d.matchedKeyword) "drive" then
        skills₁.filter (fun s => s.skill != "Four Wheeler Repair")
      else skills₁
    | none => skills₁
  else skills₁

/-- `MultilingualSkillExtractor._filter_general_skills`. -/
def filterGeneralSkills (skills : List Extracted) : List Extracted :=
  filterStage2 (skills.map (·.skill)) (filterStage1 (skills.map (·.skill)) skills)

/-- `MultilingualSkillExtractor.extract_skills`. -/
def extractSkills (text : String) : List Extracted :=
  filterGeneralSkills (extractRaw text)

/-- The skill names of an extraction result. -/
def extractedNames (l : List Extracted) : List String := l.map (·.skill)

/-- `text` contains (case-insensitively) some keyword variant of skill `s`
from the multilingual table. -/
def hasKw (s text : String) : Bool :=
  multilingualKeywords.any
    (fun p => p.1 == s && p.2.any (fun kw => strContains (pyLower text) (pyLower kw)))

/-- The extraction produced a `Vehicle Driving` match whose matched keyword
contains `"drive"` (the guard of the second suppression rule). -/
def drivingMatchIsDriveKw (text : String) : Bool :=
  (extractRaw text).any
    (fun e => e.skill == "Vehicle Driving" && strContains (pyLower e.matchedKeyword) "drive")

/-! ### Lemmas about the extraction loop -/

theorem extractLoop_nodup_avoid (t : String) :
    ∀ (l : List (String × List String)) (seen : List String),
      (extractedNames (extractLoop t l seen)).Nodup ∧
        ∀ s ∈ extractedNames (extractLoop t l seen), s ∉ seen := by
  intro l
  induction l with
  | nil => intro seen; simp [extractLoop, extractedNames]
  | cons p rest ih =>
    intro seen
    obtain ⟨name, kws⟩ := p
    show (extractedNames (extractLoop t ((name, kws) :: rest) seen)).Nodup ∧ _
    simp only [extractLoop]
    cases hm : firstKwMatch t kws with
    | none => exact ih seen
    | some kw =>
      by_cases hseen : name ∈ seen
      · simpa [hseen] using ih seen
      · simp only [if_neg hseen]
        rcases ih (name :: seen) with ⟨hnd, havoid⟩
        constructor
        · refine List.nodup_cons.mpr ⟨?_, hnd⟩
          intro hmem
          exact (havoid name hmem) (List.mem_cons_self name seen)
        · intro s hs
          rcases List.mem_cons.mp hs with rfl | hs
          · exact hseen
          · intro hcontra
            exact (havoid s hs) (List.mem_cons_of_mem name hcontra)

theorem extractRaw_names_nodup (text : String) :
    (extractedNames (extractRaw text)).Nodup :=
  (extractLoop_nodup_avoid (pyLower text) sortedSkills []).1

/-- Full characterization of membership in the extraction loop, assuming
the table keys are distinct (they are: dict keys). -/
theorem mem_extractLoop_iff (t : String) :
    ∀ (l : List (String × List String)) (seen : List String),
      (l.map Prod.fst).Nodup →
      ∀ e : Extracted,
        (e ∈ extractLoop t l seen ↔
          e.skill ∉ seen ∧ ∃ kws, (e.skill, kws) ∈ l ∧
            firstKwMatch t kws = some e.matchedKeyword ∧
            e.confidence = 95/100 ∧ e.method = "multilingual_keyword") := by
  intro l
  induction l with
  | nil => intro seen _ e; simp [extractLoop]
  | cons p rest ih =>
    intro seen hnd e
    obtain ⟨name, kws⟩ := p
    have hnd' : (rest.map Prod.fst).Nodup := (List.nodup_cons.mp hnd).2
    have hname : name ∉ rest.map Prod.fst := (List.nodup_cons.mp hnd).1
    simp only [extractLoop]
    cases hm : firstKwMatch t kws with
    | none =>
      rw [ih seen hnd' e]
      constructor
      · rintro ⟨hs, ks, hks, hrest⟩
        exact ⟨hs, ks, List.mem_cons_of_mem _ hks, hrest⟩
      · rintro ⟨hs, ks, hks, hfm, hrest⟩
        rcases List.mem_cons.mp hks with heq | hks
        · have h2 : ks = kws := congrArg Prod.snd heq
          rw [h2, hm] at hfm; cases hfm
        · exact ⟨hs, ks, hks, hfm, hrest⟩
    | some kw =>
      by_cases hseen : name ∈ seen
      · simp only [if_pos hseen]
        rw [ih seen hnd' e]
        constructor
        · rintro ⟨hs, ks, hks, hrest⟩
          exact ⟨hs, ks, List.mem_cons_of_mem _ hks, hrest⟩
        · rintro ⟨hs, ks, hks, hrest⟩
          rcases List.mem_cons.mp hks with heq | hks
          · have h1 : e.skill = name := by
              have := congrArg Prod.fst heq; simpa using this
            rw [h1] at hs; exact absurd hseen hs
          · exact ⟨hs, ks, hks, hrest⟩
      · simp only [if_neg hseen]
        constructor
        · intro hmem
          rcases List.mem_cons.mp hmem with rfl | hmem
          · exact ⟨hseen, kws, List.mem_cons_self _ _, hm, rfl, rfl⟩
          · rcases (ih (name :: seen) hnd' e).mp hmem with ⟨hs, ks, hks, hrest⟩
            refine ⟨fun hc => hs (List.mem_cons_of_mem _ hc), ks,
              List.mem_cons_of_mem _ hks, hrest⟩
        · rintro ⟨hs, ks, hks, hfm, hconf, hmeth⟩
          rcases List.mem_cons.mp hks with heq | hks
          · have h1 : e.skill = name := by
              have := congrArg Prod.fst heq; simpa using this
            have h2 : ks = kws := by
              have := congrArg Prod.snd heq; simpa using this
            rw [h2, hm] at hfm
            have h3 : e.matchedKeyword = kw := by
              simpa using congrArg (fun o => o.getD "") hfm.symm
            have : e = ⟨name, 95/100, "multilingual_keyword", kw⟩ := by
              cases e; simp_all
            rw [this]; exact List.mem_cons_self _ _
          · have hskill : e.skill ≠ name := by
              intro hc
              apply hname
              exact hc ▸ (List.mem_map_of_mem Prod.fst hks)
            refine List.mem_cons_of_mem _ ?_
            refine (ih (name :: seen) hnd' e).mpr ⟨?_, ks, hks, hfm, hconf, hmeth⟩
            intro hc
            rcases List.mem_cons.mp hc with hc | hc
            · exact hskill hc
            · exact hs hc

theorem multilingualKeywords_keys_nodup :
    (multilingualKeywords.map Prod.fst).Nodup := by decide

theorem sortedSkills_keys_nodup : (sortedSkills.map Prod.fst).Nodup :=
  (((sortKD_perm maxKwLen multilingualKeywords).map Prod.fst).nodup_iff).mpr
    multilingualKeywords_keys_nodup

/-- Membership in the raw extraction, phrased against the original table. -/
theorem mem_extractRaw_iff (text : String) (e : Extracted) :
    e ∈ extractRaw text ↔
      ∃ kws, (e.skill, kws) ∈ multilingualKeywords ∧
        firstKwMatch (pyLower text) kws = some e.matchedKeyword ∧
        e.confidence = 95/100 ∧ e.method = "multilingual_keyword" := by
  rw [show extractRaw text = extractLoop (pyLower text) sortedSkills [] from rfl,
    mem_extractLoop_iff (pyLower text) sortedSkills [] sortedSkills_keys_nodup e]
  simp only [List.not_mem_nil, not_false_iff, true_and]
  constructor
  · rintro ⟨ks, hks, hrest⟩
    exact ⟨ks, (mem_sortKD maxKwLen _ _).mp hks, hrest⟩
  · rintro ⟨ks, hks, hrest⟩
    exact ⟨ks, (mem_sortKD maxKwLen _ _).mpr hks, hrest⟩

theorem firstKwMatch_isSome_iff (t : String) (kws : List String) :
    (∃ kw, firstKwMatch t kws = some kw) ↔
      ∃ kw ∈ kws, strContains t (pyLower kw) = true := by
  rw [← Option.isSome_iff_exists]
  unfold firstKwMatch
  rw [List.find?_isSome]
  constructor
  · rintro ⟨kw, hkw, hc⟩
    exact ⟨kw, (mem_sortKD String.length _ _).mp hkw, hc⟩
  · rintro ⟨kw, hkw, hc⟩
    exact ⟨kw, (mem_sortKD String.length _ _).mpr hkw, hc⟩

/-- A skill name appears in the raw extraction iff one of its keyword
variants occurs in the (lower-cased) input. -/
theorem mem_extractRaw_names_iff (text : String) (s : String) :
    s ∈ extractedNames (extractRaw text) ↔ hasKw s text = true := by
  constructor
  · intro hs
    rcases List.mem_map.mp hs with ⟨e, he, rfl⟩
    rcases (mem_extractRaw_iff text e).mp he with ⟨kws, hkws, hfm, _, _⟩
    rw [hasKw, List.any_eq_true]
    refine ⟨(e.skill, kws), hkws, ?_⟩
    rw [Bool.and_eq_true]
    refine ⟨by simp, ?_⟩
    rw [List.any_eq_true]
    have := (firstKwMatch_isSome_iff (pyLower text) kws).mp ⟨_, hfm⟩
    rcases this with ⟨kw, hkw, hc⟩
    exact ⟨kw, hkw, hc⟩
  · intro hs
    rw [hasKw, List.any_eq_true] at hs
    rcases hs with ⟨⟨name, kws⟩, hmem, hp⟩
    rw [Bool.and_eq_true] at hp
    have hname : name = s := by simpa using hp.1
    subst hname
    rcases List.any_eq_true.mp hp.2 with ⟨kw, hkw, hc⟩
    have hx : ∃ kw₀, firstKwMatch (pyLower text) kws = some kw₀ :=
      (firstKwMatch_isSome_iff (pyLower text) kws).mpr ⟨kw, hkw, hc⟩
    rcases hx with ⟨kw₀, hkw₀⟩
    refine List.mem_map.mpr ⟨⟨name, 95/100, "multilingual_keyword", kw₀⟩, ?_, rfl⟩
    exact (mem_extractRaw_iff text _).mpr ⟨kws, hmem, hkw₀, rfl, rfl⟩

/-! ### Lemmas about the suppression rules -/

theorem filterStage1_sublist (names : List String) (skills : List Extracted) :
    (filterStage1 names skills).Sublist skills := by
  unfold filterStage1
  split
  · exact List.filter_sublist skills
  · exact List.Sublist.refl skills

theorem filterStage2_sublist (names : List String) (skills₁ : List Extracted) :
    (filterStage2 names skills₁).Sublist skills₁ := by
  unfold filterStage2
  split
  · split
    · split
      · exact List.filter_sublist skills₁
      · exact List.Sublist.refl skills₁
    · exact List.Sublist.refl skills₁
  · exact List.Sublist.refl skills₁

theorem filterGeneralSkills_sublist (skills : List Extracted) :
    (filterGeneralSkills skills).Sublist skills :=
  (filterStage2_sublist _ _).trans (filterStage1_sublist _ _)

theorem extractSkills_sublist (text : String) :
    (extractSkills text).Sublist (extractRaw text) :=
  filterGeneralSkills_sublist _

theorem extractSkills_names_nodup (text : String) :
    (extractedNames (extractSkills text)).Nodup :=
  (extractRaw_names_nodup text).sublist ((extractSkills_sublist text).map _)

theorem filterStage1_keeps {names : List String} {skills : List Extracted} {e : Extracted}
    (he : e ∈ skills) (h1 : e.skill ≠ "General Repair") :
    e ∈ filterStage1 names skills := by
  unfold filterStage1
  split
  · exact List.mem_filter.mpr ⟨he, by simpa using h1⟩
  · exact he

theorem filterStage2_keeps {names : List String} {skills₁ : List Extracted} {e : Extracted}
    (he : e ∈ skills₁) (h2 : e.skill ≠ "Four Wheeler Repair") :
    e ∈ filterStage2 names skills₁ := by
  unfold filterStage2
  split
  · split
    · split
      · exact List.mem_filter.mpr ⟨he, by simpa using h2⟩
      · exact he
    · exact he
  · exact he

/-- Any extracted entry that is neither of the two suppressible skills
survives `_filter_general_skills`. -/
theorem filterGeneralSkills_keeps {skills : List Extracted} {e : Extracted}
    (he : e ∈ skills) (h1 : e.skill ≠ "General Repair")
    (h2 : e.skill ≠ "Four Wheeler Repair") :
    e ∈ filterGeneralSkills skills :=
  filterStage2_keeps (filterStage1_keeps he h1) h2

theorem filterStage1_removes {names : List String} {skills : List Extracted}
    (hc : "General Repair" ∈ names ∧ specificRepairs.any (fun s => names.contains s)) :
    "General Repair" ∉ (filterStage1 names skills).map (·.skill) := by
  unfold filterStage1
  rw [if_pos hc]
  intro hmem
  rcases List.mem_map.mp hmem with ⟨e, he, hskill⟩
  have := (List.mem_filter.mp he).2
  simp [hskill] at this

theorem filterStage2_names_sub {names : List String} {skills₁ : List Extracted} :
    ∀ s ∈ (filterStage2 names skills₁).map (·.skill), s ∈ skills₁.map (·.skill) := by
  intro s hs
  rcases List.mem_map.mp hs with ⟨e, he, hskill⟩
  exact List.mem_map.mpr ⟨e, (filterStage2_sublist names skills₁).mem he, hskill⟩

/-- When the second rule's guard holds and the (unique) `Vehicle Driving`
match has a keyword containing `"drive"`, `'Four Wheeler Repair'` is
suppressed. -/
theorem filterStage2_removes {names : List String} {skills₁ : List Extracted}
    (hg : "Vehicle Driving" ∈ names ∧ "Four Wheeler Repair" ∈ names)
    (huniq : ∀ a ∈ skills₁, ∀ b ∈ skills₁, a.skill = b.skill → a = b)
    {d : Extracted} (hd : d ∈ skills₁) (hdskill : d.skill = "Vehicle Driving")
    (hdrive : strContains (pyLower d.matchedKeyword) "drive" = true) :
    "Four Wheeler Repair" ∉ (filterStage2 names skills₁).map (·.skill) := by
  unfold filterStage2
  rw [if_pos hg]
  have hsome : ∃ d', skills₁.find? (fun s => s.skill == "Vehicle Driving") = some d' := by
    rw [← Option.isSome_iff_exists, List.find?_isSome]
    exact ⟨d, hd, by simpa using hdskill⟩
  rcases hsome with ⟨d', hfind⟩
  rw [hfind]
  have hd'mem : d' ∈ skills₁ := List.mem_of_find?_eq_some hfind
  have hd'skill : d'.skill = "Vehicle Driving" := by
    simpa using List.find?_some hfind
  have : d' = d := huniq d' hd'mem d hd (by rw [hd'skill, hdskill])
  rw [this]
  dsimp only
  rw [if_pos hdrive]
  intro hmem
  rcases List.mem_map.mp hmem with ⟨e, he, hskill⟩
  have := (List.mem_filter.mp he).2
  simp [hskill] at this

/-- In any branch where the second rule's removal does not fire,
`filterStage2` is the identity; in particular a `'Four Wheeler Repair'`
entry survives unless some `Vehicle Driving` entry of the list has a
matched keyword containing `"drive"`. -/
theorem filterStage2_keeps_fwr {names : List String} {skills₁ : List Extracted} {e : Extracted}
    (he : e ∈ skills₁)
    (hnodrive : ∀ d ∈ skills₁, d.skill = "Vehicle Driving" →
      strContains (pyLower d.matchedKeyword) "drive" = false) :
    e ∈ filterStage2 names skills₁ := by
  unfold filterStage2
  split
  · cases hfind : skills₁.find? (fun s => s.skill == "Vehicle Driving") with
    | none => exact he
    | some d =>
      have hdmem : d ∈ skills₁ := List.mem_of_find?_eq_some hfind
      have hdskill : d.skill = "Vehicle Driving" := by
        simpa using List.find?_some hfind
      dsimp only
      rw [hnodrive d hdmem hdskill]
      simp only [Bool.false_eq_true, if_false]
      exact he
  · exact he

theorem contains_iff_mem_str (l : List String) (a : String) :
    l.contains a = true ↔ a ∈ l := by
  simp

theorem extractRaw_inj (text : String) :
    ∀ a ∈ extractRaw text, ∀ b ∈ extractRaw text, a.skill = b.skill → a = b := by
  intro a ha b hb hab
  exact List.inj_on_of_nodup_map (extractRaw_names_nodup text) ha hb hab

theorem exists_entry_of_hasKw {s text : String} (h : hasKw s text = true) :
    ∃ e ∈ extractRaw text, e.skill = s := by
  have := (mem_extractRaw_names_iff text s).mpr h
  rcases List.mem_map.mp this with ⟨e, he, hes⟩
  exact ⟨e, he, hes⟩

theorem hasKw_of_mem_raw {text : String} {e : Extracted} (he : e ∈ extractRaw text) :
    hasKw e.skill text = true :=
  (mem_extractRaw_names_iff text e.skill).mp (List.mem_map_of_mem _ he)

/-- C1 (amended): for an utterance containing both a keyword of a specific
repair skill and a keyword of its generic conflict `'General Repair'`,
`extract_skills` never returns `'General Repair'`, and returns the specific
skill — except that `'Four Wheeler Repair'` may itself be suppressed by the
driving rule when the `Vehicle Driving` match's keyword contains `"drive"`.
For the `'Four Wheeler Repair'` / `'Vehicle Driving'` pair, when both match
and the driving match's matched keyword contains `"drive"`, only
`'Vehicle Driving'` is returned. -/
theorem extract_suppression_amended :
    (∀ text s, s ∈ specificRepairs →
      hasKw s text = true → hasKw "General Repair" text = true →
        "General Repair" ∉ extractedNames (extractSkills text) ∧
          (s ∈ extractedNames (extractSkills text) ∨
            (s = "Four Wheeler Repair" ∧ drivingMatchIsDriveKw text = true))) ∧
    (∀ text, hasKw "Vehicle Driving" text = true →
      hasKw "Four Wheeler Repair" text = true →
      drivingMatchIsDriveKw text = true →
        "Vehicle Driving" ∈ extractedNames (extractSkills text) ∧
        "Four Wheeler Repair" ∉ extractedNames (extractSkills text)) := by
  constructor
  · intro text s hs hskw hgrkw
    have hsn : s ∈ extractedNames (extractRaw text) :=
      (mem_extractRaw_names_iff text s).mpr hskw
    have hgrn : "General Repair" ∈ extractedNames (extractRaw text) :=
      (mem_extractRaw_names_iff text "General Repair").mpr hgrkw
    have hsGR : s ≠ "General Repair" := by
      intro h; subst h; revert hs; decide
    have hcond1 : "General Repair" ∈ (extractRaw text).map (·.skill) ∧
        specificRepairs.any (fun s => ((extractRaw text).map (·.skill)).contains s) = true := by
      refine ⟨hgrn, List.any_eq_true.mpr ⟨s, hs, ?_⟩⟩
      exact (contains_iff_mem_str _ s).mpr hsn
    constructor
    · -- 'General Repair' is suppressed
      intro hmem
      rcases List.mem_map.mp hmem with ⟨e, he, hes⟩
      have he' : e ∈ filterStage1 ((extractRaw text).map (·.skill)) (extractRaw text) :=
        (filterStage2_sublist _ _).mem he
      exact filterStage1_removes hcond1 (List.mem_map.mpr ⟨e, he', hes⟩)
    · -- the specific skill survives, unless it is FWR hit by the driving rule
      rcases exists_entry_of_hasKw hskw with ⟨e, he, hes⟩
      by_cases hFW : s = "Four Wheeler Repair"
      · by_cases hdk : drivingMatchIsDriveKw text = true
        · exact Or.inr ⟨hFW, hdk⟩
        · refine Or.inl (List.mem_map.mpr ⟨e, ?_, hes⟩)
          refine filterStage2_keeps_fwr (filterStage1_keeps he (hes.symm ▸ hsGR)) ?_
          intro d hd hdskill
          by_contra hc
          rw [Bool.not_eq_false] at hc
          apply hdk
          refine List.any_eq_true.mpr ⟨d, (filterStage1_sublist _ _).mem hd, ?_⟩
          rw [Bool.and_eq_true]
          exact ⟨by simpa using hdskill, hc⟩
      · refine Or.inl (List.mem_map.mpr ⟨e, ?_, hes⟩)
        exact filterGeneralSkills_keeps he (hes.symm ▸ hsGR) (hes.symm ▸ hFW)
  · intro text hvd hfw hdk
    rcases List.any_eq_true.mp hdk with ⟨d, hd, hp⟩
    rw [Bool.and_eq_true] at hp
    have hdskill : d.skill = "Vehicle Driving" := by simpa using hp.1
    have hdrive : strContains (pyLower d.matchedKeyword) "drive" = true := hp.2
    have hvdn : "Vehicle Driving" ∈ extractedNames (extractRaw text) :=
      (mem_extractRaw_names_iff text _).mpr hvd
    have hfwn : "Four Wheeler Repair" ∈ extractedNames (extractRaw text) :=
      (mem_extractRaw_names_iff text _).mpr hfw
    constructor
    · refine List.mem_map.mpr ⟨d, ?_, hdskill⟩
      exact filterGeneralSkills_keeps hd (by rw [hdskill]; decide) (by rw [hdskill]; decide)
    · refine filterStage2_removes ⟨hvdn, hfwn⟩ ?_
        (filterStage1_keeps hd (by rw [hdskill]; decide)) hdskill hdrive
      intro a ha b hb hab
      exact extractRaw_inj text a ((filterStage1_sublist _ _).mem ha)
        b ((filterStage1_sublist _ _).mem hb) hab

set_option maxRecDepth 10000

/-- C1 counterexample: `"car repair general maintenance driver"` contains a
`'Four Wheeler Repair'` keyword (`"car repair"`) and a `'General Repair'`
keyword (`"general maintenance"`), yet `extract_skills` does not return the
specific skill `'Four Wheeler Repair'`: the `'Vehicle Driving'` match
(keyword `"driver"`, which contains `"drive"`) suppresses it.  So the claim
"returns only the specific skill and not the generic one" fails for the
specific/generic pair (`'Four Wheeler Repair'`, `'General Repair'`). -/
theorem c1_counterexample :
    hasKw "Four Wheeler Repair" "car repair general maintenance driver" = true ∧
    hasKw "General Repair" "car repair general maintenance driver" = true ∧
    "Four Wheeler Repair" ∉
      extractedNames (extractSkills "car repair general maintenance driver") ∧
    extractedNames (extractSkills "car repair general maintenance driver") =
      ["Vehicle Driving"] := by
  refine ⟨by decide, by decide, by decide, by decide⟩

/-- C1 witness: the amended suppression theorem applied to the concrete
utterance `"i do pipe fitting and general repair"` with specific skill
`'Pipe Fitting'`. -/
theorem c1_witness :
    "General Repair" ∉
      extractedNames (extractSkills "i do pipe fitting and general repair") ∧
    ("Pipe Fitting" ∈
        extractedNames (extractSkills "i do pipe fitting and general repair") ∨
      ("Pipe Fitting" = "Four Wheeler Repair" ∧
        drivingMatchIsDriveKw "i do pipe fitting and general repair" = true)) :=
  extract_suppression_amended.1 "i do pipe fitting and general repair" "Pipe Fitting"
    (by decide) (by decide) (by decide)

/-- C7: `extract_skills` never returns a duplicate skill; every skill with a
matching keyword variant is returned, except `'General Repair'` or
`'Four Wheeler Repair'` when their respective suppression rules fire; and on
`"I know Pipe Fitting and Tap Repair"` it returns exactly
`Pipe Fitting` and `Tap Repair`, each once. -/
theorem extract_exactly_once :
    (∀ text, (extractedNames (extractSkills text)).Nodup) ∧
    (∀ text s, hasKw s text = true →
      s ∈ extractedNames (extractSkills text) ∨
        (s = "General Repair" ∧ ∃ s' ∈ specificRepairs, hasKw s' text = true) ∨
        (s = "Four Wheeler Repair" ∧ hasKw "Vehicle Driving" text = true ∧
          drivingMatchIsDriveKw text = true)) ∧
    extractedNames (extractSkills "I know Pipe Fitting and Tap Repair") =
      ["Pipe Fitting", "Tap Repair"] := by
  refine ⟨extractSkills_names_nodup, ?_, by decide⟩
  intro text s hkw
  by_cases hmem : s ∈ extractedNames (extractSkills text)
  · exact Or.inl hmem
  · rcases exists_entry_of_hasKw hkw with ⟨e, he, hes⟩
    by_cases hGR : s = "General Repair"
    · refine Or.inr (Or.inl ⟨hGR, ?_⟩)
      by_contra hno
      push_neg at hno
      have hc1 : ¬("General Repair" ∈ (extractRaw text).map (·.skill) ∧
          specificRepairs.any
            (fun s => ((extractRaw text).map (·.skill)).contains s) = true) := by
        rintro ⟨-, hany⟩
        rcases List.any_eq_true.mp hany with ⟨s', hs', hcont⟩
        have hmem' : s' ∈ (extractRaw text).map (·.skill) :=
          (contains_iff_mem_str _ s').mp hcont
        exact (hno s' hs') ((mem_extractRaw_names_iff text s').mp hmem')
      apply hmem
      refine List.mem_map.mpr ⟨e, ?_, hes⟩
      have he₁ : e ∈ filterStage1 ((extractRaw text).map (·.skill)) (extractRaw text) := by
        unfold filterStage1
        rw [if_neg hc1]
        exact he
      exact filterStage2_keeps he₁ (by rw [hes, hGR]; decide)
    · by_cases hFW : s = "Four Wheeler Repair"
      · have hdk : drivingMatchIsDriveKw text = true := by
          by_contra hdkf
          apply hmem
          refine List.mem_map.mpr ⟨e, ?_, hes⟩
          refine filterStage2_keeps_fwr (filterStage1_keeps he (hes.symm ▸ hGR)) ?_
          intro d hd hdskill
          by_contra hc
          rw [Bool.not_eq_false] at hc
          apply hdkf
          refine List.any_eq_true.mpr ⟨d, (filterStage1_sublist _ _).mem hd, ?_⟩
          rw [Bool.and_eq_true]
          exact ⟨by simpa using hdskill, hc⟩
        rcases List.any_eq_true.mp hdk with ⟨d, hd, hp⟩
        rw [Bool.and_eq_true] at hp
        have hdskill : d.skill = "Vehicle Driving" := by simpa using hp.1
        refine Or.inr (Or.inr ⟨hFW, ?_, hdk⟩)
        exact hdskill ▸ hasKw_of_mem_raw hd
      · exfalso
        apply hmem
        refine List.mem_map.mpr ⟨e, ?_, hes⟩
        exact filterGeneralSkills_keeps he (hes.symm ▸ hGR) (hes.symm ▸ hFW)

/-- C7 witness: the exactly-once theorem applied to the utterance
`"I know Pipe Fitting and Tap Repair"` and the skill `'Tap Repair'`. -/
theorem c7_witness :
    "Tap Repair" ∈
        extractedNames (extractSkills "I know Pipe Fitting and Tap Repair") ∨
      ("Tap Repair" = "General Repair" ∧
        ∃ s' ∈ specificRepairs, hasKw s' "I know Pipe Fitting and Tap Repair" = true) ∨
      ("Tap Repair" = "Four Wheeler Repair" ∧
        hasKw "Vehicle Driving" "I know Pipe Fitting and Tap Repair" = true ∧
        drivingMatchIsDriveKw "I know Pipe Fitting and Tap Repair" = true) :=
  extract_exactly_once.2.1 "I know Pipe Fitting and Tap Repair" "Tap Repair" (by decide)

/-!
## `SkillNormalizer.normalize_skill` (`ml_module/skill_normalization.py`)

The Sentence-BERT embedding model is an external collaborator: for a fixed
model, taxonomy and input it yields one cosine-similarity score per taxonomy
row (`util.cos_sim(skill_embedding, self.skill_embeddings)[0]`).  That score
vector enters the embedding as the parameter `sims`; everything downstream
(`torch.topk`, threshold filter, result formatting) is modeled from the
source.  Scores are rationals (machine floats are rational).
-/

/-- One row of the skill-taxonomy CSV (fields used by `normalize_skill`). -/
structure TaxRow where
  skill_id : String
  skill_name : String
  category : String
deriving DecidableEq

/-- One match dict returned by `normalize_skill`. -/
structure NormMatch where
  original_skill : String
  normalized_skill : String
  category : String
  similarity : ℚ
  skill_id : String
deriving DecidableEq

/-- Python `round(x, 3)` (round-half-even differs from Mathlib's
round-half-up only at exact half-thousandths, which no claim depends on;
both are monotone). -/
def round3 (q : ℚ) : ℚ := (round (q * 1000) : ℤ) / 1000

/-- Python `round(x, 1)`. -/
def round1 (q : ℚ) : ℚ := (round (q * 10) : ℤ) / 10

theorem round3_mono {a b : ℚ} (h : a ≤ b) : round3 a ≤ round3 b := by
  unfold round3
  have h1 : round (a * 1000) ≤ round (b * 1000) := by
    rw [round_eq, round_eq]
    exact Int.floor_mono (by linarith)
  have h2 : ((round (a * 1000) : ℤ) : ℚ) ≤ ((round (b * 1000) : ℤ) : ℚ) :=
    Int.cast_le.mpr h1
  exact (div_le_div_iff_of_pos_right (by norm_num)).mpr h2

/-- `SkillNormalizer.normalize_skill`: `torch.topk` (scores sorted
descending, truncated to `min(top_k, len(similarities))`), then the
threshold filter, then result records via `taxonomy.iloc[idx]`. -/
def normalizeSkill (tax : List TaxRow) (sims : List ℚ) (skillText : String)
    (threshold : ℚ) (topK : Nat) : List NormMatch :=
  if tax = [] then []
  else
    let pairs := sims.enum
    let top := (sortKD Prod.snd pairs).take (min topK sims.length)
    (top.filter (fun p => threshold ≤ p.2)).map (fun p =>
      let row := tax.getD p.1 ⟨"", "", ""⟩
      { original_skill := skillText, normalized_skill := row.skill_name,
        category := row.category, similarity := round3 p.2, skill_id := row.skill_id })

/-- C5: threshold monotonicity of `normalize_skill` — for a fixed input,
taxonomy, score vector and `top_k`, every match returned at the larger
threshold `t₂` is also returned at the smaller threshold `t₁`. -/
theorem normalize_threshold_monotone :
    ∀ (tax : List TaxRow) (sims : List ℚ) (text : String) (k : Nat) (t₁ t₂ : ℚ),
      t₁ < t₂ →
      ∀ m ∈ normalizeSkill tax sims text t₂ k, m ∈ normalizeSkill tax sims text t₁ k := by
  intro tax sims text k t₁ t₂ hlt m hm
  unfold normalizeSkill at hm ⊢
  by_cases htax : tax = []
  · rw [if_pos htax] at hm
    cases hm
  · rw [if_neg htax] at hm ⊢
    rcases List.mem_map.mp hm with ⟨p, hp, rfl⟩
    rcases List.mem_filter.mp hp with ⟨htop, hth⟩
    refine List.mem_map.mpr ⟨p, List.mem_filter.mpr ⟨htop, ?_⟩, rfl⟩
    have h2 : t₂ ≤ p.2 := by simpa using hth
    simpa using le_trans (le_of_lt hlt) h2

/-- C5 witness: the monotonicity theorem at a concrete taxonomy, score
vector and threshold pair `2/5 < 7/10` — the match surviving the larger
threshold is also returned at the smaller one. -/
theorem normalize_threshold_monotone_witness :
    ({ original_skill := "electric work", normalized_skill := "Electrical Wiring",
       category := "Electrical Work", similarity := 9/10, skill_id := "1" } : NormMatch) ∈
      normalizeSkill
        [⟨"1", "Electrical Wiring", "Electrical Work"⟩, ⟨"2", "Pipe Fitting", "Plumbing"⟩]
        [9/10, 3/5] "electric work" (2/5) 3 := by
  apply normalize_threshold_monotone
    [⟨"1", "Electrical Wiring", "Electrical Work"⟩, ⟨"2", "Pipe Fitting", "Plumbing"⟩]
    [9/10, 3/5] "electric work" 3 (2/5) (7/10) (by norm_num)
  have hsort : sortKD Prod.snd (([(9:ℚ)/10, 3/5]).enum) = [(0, (9:ℚ)/10), (1, 3/5)] := by
    show insKD Prod.snd (0, (9:ℚ)/10) (insKD Prod.snd (1, 3/5) []) = _
    rw [show insKD Prod.snd ((1:ℕ), (3:ℚ)/5) [] = [(1, 3/5)] from rfl]
    unfold insKD
    dsimp only
    rw [if_neg (by norm_num)]
  unfold normalizeSkill
  rw [if_neg (by simp)]
  dsimp only
  rw [hsort]
  rw [show min 3 ([(9:ℚ)/10, 3/5]).length = 2 from by simp]
  rw [show List.take 2 [(0, (9:ℚ)/10), (1, 3/5)] = [(0, (9:ℚ)/10), (1, 3/5)] from rfl]
  rw [List.filter_cons, List.filter_cons]
  rw [if_pos (by norm_num : (decide ((7:ℚ)/10 ≤ ((0, (9:ℚ)/10) : ℕ × ℚ).2)) = true)]
  rw [if_neg (by norm_num : ¬((decide ((7:ℚ)/10 ≤ ((1, (3:ℚ)/5) : ℕ × ℚ).2)) = true))]
  rw [List.filter_nil, List.map_cons, List.map_nil]
  have h3 : round3 (9/10) = 9/10 := by
    unfold round3
    rw [show (9:ℚ)/10 * 1000 = 900 from by norm_num]
    norm_num
  simp [h3]

/-!
## `JobRecommender` (`job_recommender.py`)

The job side of the recommender fits a TF-IDF space once in `__init__`
(`_create_job_vectors`) and only *transforms* with it inside
`recommend_jobs`; the resulting cosine-similarity vector
(`cosine_similarity(worker_vector, self.job_vectors)[0]`, one score per
corpus row) is a pure function of the worker-skill list once the corpus is
fixed, and enters the embedding as the parameter `sim`.  Everything after
that line of `recommend_jobs` is modeled from the source.

The location filter and the gap-analysis title match are pandas
`Series.str.contains(pat, case=False, na=False)` — by default a *regular
expression* search with `re.IGNORECASE`, not literal substring
containment.  The stdlib regex engine enters the embedding as a parameter
`rePat : String → Option (String → Bool)`, modeling
`re.compile(pat, re.IGNORECASE)`: `none` when the pattern is invalid
(Python raises `re.error`; the exception's message text is not modeled),
otherwise the compiled searcher `s ↦ (re.search finds pat in s)`.  The one
property of Python's engine the general theorems rely on is stated as
`modelsReLit`: on a pattern with no regex metacharacter, compilation
succeeds and the search finds exactly the literal (case-insensitive)
occurrences of the pattern.
-/

/-- The characters that are special in a Python regular expression
(outside character classes): `. ^ $ * + ? { } [ ] \ | ( )`. -/
def isRegexMeta (c : Char) : Bool :=
  c == '.' || c == '^' || c == '$' || c == '*' || c == '+' || c == '?' ||
  c == '\x7b' || c == '\x7d' || c == '[' || c == ']' || c == '\\' ||
  c == '|' || c == '(' || c == ')'

/-- `pat` contains no regex metacharacter: `re.compile(pat)` is then valid
and matches exactly the literal occurrences of `pat`. -/
def regexFree (pat : String) : Bool := !pat.data.any isRegexMeta

/-- The property of Python's `re` engine that the contracts below use: on
every metacharacter-free pattern, compilation (with `re.IGNORECASE`)
succeeds and the compiled search is case-insensitive literal substring
search. -/
def modelsReLit (rePat : String → Option (String → Bool)) : Prop :=
  ∀ pat, regexFree pat = true →
    ∃ m, rePat pat = some m ∧ ∀ s, m s = strContains (pyLower s) (pyLower pat)

/-- The regex engine restricted to literal behavior: every pattern
compiles to case-insensitive substring search.  This agrees with Python's
engine on all metacharacter-free patterns (`modelsReLit` holds by
definition) and instantiates the engine in witnesses and in the
orchestrator examples, which only use such patterns. -/
def litRe : String → Option (String → Bool) :=
  fun pat => some (fun s => strContains (pyLower s) (pyLower pat))

/-- A concrete engine agreeing with Python's `re.compile(·, re.IGNORECASE)`
on the patterns the concrete examples exercise: `"("` is an invalid
pattern (unterminated subpattern, `re.error`); `".*"` matches every
string; `"."` matches any single character, so searching succeeds exactly
on nonempty strings; every other pattern used with this engine below is
metacharacter-free, where search is literal. -/
def exRe : String → Option (String → Bool) :=
  fun pat =>
    if pat = "(" then none
    else if pat = ".*" then some (fun _ => true)
    else if pat = "." then some (fun s => !s.isEmpty)
    else some (fun s => strContains (pyLower s) (pyLower pat))

theorem litRe_models : modelsReLit litRe :=
  fun _ _ => ⟨_, rfl, fun _ => rfl⟩

/-- One row of the job-listings corpus (columns used by the code). -/
structure Job where
  job_id : String
  job_title : String
  category : String
  required_skills : String
  experience_required : String
  salary_range : String
  location : String
  job_type : String
deriving DecidableEq

/-- One recommendation dict returned by `recommend_jobs`. -/
structure JobRec where
  job_id : String
  job_title : String
  category : String
  required_skills : String
  experience_required : String
  salary_range : String
  location : String
  job_type : String
  match_score : ℚ
  match_percentage : ℚ
deriving DecidableEq

/-- The recommendation dict built from one scored corpus row. -/
def mkJobRec (p : Job × ℚ) : JobRec :=
  { job_id := p.1.job_id, job_title := p.1.job_title, category := p.1.category,
    required_skills := p.1.required_skills,
    experience_required := p.1.experience_required,
    salary_range := p.1.salary_range, location := p.1.location,
    job_type := p.1.job_type, match_score := round3 p.2,
    match_percentage := round1 (p.2 * 100) }

/-- `nlargest(top_k, 'match_score')` (stable descending sort then `take`)
followed by the result formatting loop. -/
def rankJobs (scored : List (Job × ℚ)) (topK : Nat) : List JobRec :=
  ((sortKD Prod.snd scored).take topK).map mkJobRec

/-- The location filter of `recommend_jobs`:
`jobs_with_scores['location'].str.contains(location, case=False, na=False)`.
Python's `if location:` treats both `None` and `""` as "no filter"; an
invalid location pattern makes the compile raise `re.error`. -/
def locFilter (rePat : String → Option (String → Bool)) (location : Option String)
    (scored : List (Job × ℚ)) : Except String (List (Job × ℚ)) :=
  match location with
  | some loc =>
    if loc = "" then .ok scored
    else
      match rePat loc with
      | none => .error "re.error"
      | some m => .ok (scored.filter (fun p => m p.1.location))
  | none => .ok scored

/-- `JobRecommender.recommend_jobs`.  The empty-corpus/empty-skills guard
returns `[]` before any filtering; `jobs_with_scores` pairs each corpus
row with its similarity; the location filter may raise on an invalid
regex pattern (`Except.error`). -/
def recommendJobs (rePat : String → Option (String → Bool))
    (sim : List String → List ℚ) (jobs : List Job)
    (workerSkills : List String) (location : Option String) (topK : Nat) :
    Except String (List JobRec) :=
  if jobs = [] ∨ workerSkills = [] then .ok []
  else
    let scored := jobs.zip (sim workerSkills)
    match locFilter rePat location scored with
    | .error e => .error e
    | .ok fl => .ok (rankJobs fl topK)

theorem rankJobs_length_le (scored : List (Job × ℚ)) (k : Nat) :
    (rankJobs scored k).length ≤ k := by
  calc (rankJobs scored k).length
      = ((sortKD Prod.snd scored).take k).length := List.length_map _ _
    _ ≤ k := List.length_take_le k _

theorem rankJobs_pairwise (scored : List (Job × ℚ)) (k : Nat) :
    (rankJobs scored k).Pairwise (fun a b => b.match_score ≤ a.match_score) := by
  have hsorted := sortKD_pairwise Prod.snd scored
  have htake := hsorted.sublist (List.take_sublist k _)
  refine (List.pairwise_map).mpr ?_
  exact htake.imp (fun h => round3_mono h)

theorem mem_rankJobs {r : JobRec} {scored : List (Job × ℚ)} {k : Nat}
    (hr : r ∈ rankJobs scored k) : ∃ p ∈ scored, r = mkJobRec p := by
  rcases List.mem_map.mp hr with ⟨p, hp, rfl⟩
  exact ⟨p, (mem_sortKD Prod.snd p _).mp (List.mem_of_mem_take hp), rfl⟩

/-- C2 (amended): whenever `recommend_jobs` returns, it returns at most
`top_k` results sorted by descending match score; empty worker skills or
an empty corpus short-circuit to `[]` before the location filter (so those
calls never raise); and since the location is matched as a
*case-insensitive regular expression*, the containment clause holds for
every location string free of regex metacharacters: for such locations the
call returns normally and every returned entry's location contains the
location as a case-insensitive substring.  (A metacharacter location can
select rows without literal containment, and an invalid pattern raises —
see the counterexample.) -/
theorem recommend_jobs_contract :
    ∀ (rePat : String → Option (String → Bool)) (sim : List String → List ℚ)
      (jobs : List Job) (ws : List String) (loc : Option String) (k : Nat),
      (∀ res, recommendJobs rePat sim jobs ws loc k = .ok res →
        res.length ≤ k ∧
          res.Pairwise (fun a b => b.match_score ≤ a.match_score)) ∧
      (modelsReLit rePat →
        ∀ l, loc = some l → regexFree l = true →
          ∃ res, recommendJobs rePat sim jobs ws loc k = .ok res ∧
            ∀ r ∈ res, strContains (pyLower r.location) (pyLower l) = true) ∧
      (ws = [] → recommendJobs rePat sim jobs ws loc k = .ok []) ∧
      (jobs = [] → recommendJobs rePat sim jobs ws loc k = .ok []) := by
  intro rePat sim jobs ws loc k
  by_cases hguard : jobs = [] ∨ ws = []
  · have heq : recommendJobs rePat sim jobs ws loc k = .ok [] := by
      unfold recommendJobs
      rw [if_pos hguard]
    refine ⟨?_, ?_, fun _ => heq, fun _ => heq⟩
    · intro res hres
      rw [heq] at hres
      have : ([] : List JobRec) = res := Except.ok.inj hres
      rw [← this]
      exact ⟨by simp, by simp⟩
    · intro _ l _ _
      exact ⟨[], heq, by simp⟩
  · push_neg at hguard
    have hif : ¬(jobs = [] ∨ ws = []) := by simp [hguard.1, hguard.2]
    have hunfold : recommendJobs rePat sim jobs ws loc k =
        match locFilter rePat loc (jobs.zip (sim ws)) with
        | .error e => .error e
        | .ok fl => .ok (rankJobs fl k) := by
      unfold recommendJobs
      rw [if_neg hif]
    refine ⟨?_, ?_, fun h => absurd h hguard.2, fun h => absurd h hguard.1⟩
    · intro res hres
      rw [hunfold] at hres
      rcases hlf : locFilter rePat loc (jobs.zip (sim ws)) with e | fl
      · rw [hlf] at hres
        cases hres
      · rw [hlf] at hres
        have : rankJobs fl k = res := Except.ok.inj hres
        rw [← this]
        exact ⟨rankJobs_length_le fl k, rankJobs_pairwise fl k⟩
    · intro hlit l hl hfree
      subst hl
      by_cases hempty : l = ""
      · subst hempty
        have hlf : locFilter rePat (some "") (jobs.zip (sim ws)) =
            .ok (jobs.zip (sim ws)) := by
          unfold locFilter
          dsimp only
          rw [if_pos rfl]
        refine ⟨rankJobs (jobs.zip (sim ws)) k, by rw [hunfold, hlf], ?_⟩
        intro r _
        exact strContains_empty (pyLower r.location)
      · rcases hlit l hfree with ⟨m, hm, hms⟩
        have hlf : locFilter rePat (some l) (jobs.zip (sim ws)) =
            .ok ((jobs.zip (sim ws)).filter
              (fun p => strContains (pyLower p.1.location) (pyLower l))) := by
          unfold locFilter
          dsimp only
          rw [if_neg hempty, hm]
          dsimp only
          congr 1
          apply List.filter_congr
          intro p _
          exact hms p.1.location
        refine ⟨rankJobs ((jobs.zip (sim ws)).filter
            (fun p => strContains (pyLower p.1.location) (pyLower l))) k,
          by rw [hunfold, hlf], ?_⟩
        intro r hr
        rcases mem_rankJobs hr with ⟨p, hp, rfl⟩
        exact (List.mem_filter.mp hp).2

/-- The Mumbai corpus row of the concrete `recommend_jobs` examples. -/
def exJobMumbai : Job :=
  ⟨"J2", "Plumber", "Plumbing", "Pipe Fitting", "1", "12000-18000",
   "Mumbai", "Full-time"⟩

theorem round3_one : round3 1 = 1 := by
  unfold round3
  rw [show (1 : ℚ) * 1000 = 1000 from by norm_num]
  norm_num

theorem round1_one_hundred : round1 ((1 : ℚ) * 100) = 100 := by
  unfold round1
  rw [show (1 : ℚ) * 100 * 10 = 1000 from by norm_num]
  norm_num

/-- C2 counterexample: with the regex location `"."` the program keeps the
`"Mumbai"` row (a dot matches any character), although `"Mumbai"` does not
contain `"."` as a substring — so a returned entry's location need not
contain the given location.  With the invalid location pattern `"("` the
call raises instead of returning a list at all. -/
theorem c2_counterexample :
    recommendJobs exRe (fun _ => [1]) [exJobMumbai] ["Pipe Fitting"] (some ".") 5 =
      .ok [{ job_id := "J2", job_title := "Plumber", category := "Plumbing",
             required_skills := "Pipe Fitting", experience_required := "1",
             salary_range := "12000-18000", location := "Mumbai",
             job_type := "Full-time", match_score := 1, match_percentage := 100 }] ∧
    strContains (pyLower "Mumbai") (pyLower ".") = false ∧
    recommendJobs exRe (fun _ => [1]) [exJobMumbai] ["Pipe Fitting"] (some "(") 5 =
      .error "re.error" := by
  refine ⟨?_, by decide, rfl⟩
  have h0 : recommendJobs exRe (fun _ => [1]) [exJobMumbai] ["Pipe Fitting"] (some ".") 5 =
      .ok [mkJobRec (exJobMumbai, 1)] := rfl
  rw [h0]
  simp only [mkJobRec, exJobMumbai]
  rw [round3_one, round1_one_hundred]

/-- C2 witness: the amended contract applied at the literal engine, a
one-row Mumbai corpus and the metacharacter-free location `"mum"`:
the call returns (at most `top_k` rows) and the returned row's location
contains `"mum"` case-insensitively. -/
theorem recommend_jobs_contract_witness :
    [mkJobRec (exJobMumbai, 1)].length ≤ 5 ∧
    strContains (pyLower (mkJobRec (exJobMumbai, 1)).location) (pyLower "mum") = true := by
  have h := recommend_jobs_contract litRe (fun _ => [1]) [exJobMumbai]
    ["Pipe Fitting"] (some "mum") 5
  have heval : recommendJobs litRe (fun _ => [1]) [exJobMumbai]
      ["Pipe Fitting"] (some "mum") 5 = .ok [mkJobRec (exJobMumbai, 1)] := rfl
  refine ⟨(h.1 _ heval).1, ?_⟩
  rcases h.2.1 litRe_models "mum" rfl (by decide) with ⟨res, heq, hcont⟩
  have hres : [mkJobRec (exJobMumbai, 1)] = res := by
    rw [heval] at heq
    exact Except.ok.inj heq
  exact hcont _ (by rw [← hres]; exact List.mem_cons_self _ _)

/-!
### `JobRecommender.get_skill_gap_analysis`

Python's `matched/missing/extra` are `set` objects; `list(...)` enumerates
them in an unspecified (hash-dependent) order, so the embedding keeps them
as finite sets.  `required_skills.split(', ')` always yields a nonempty
list (on `""` it yields `[""]`), so the required set is never empty and the
`if required_skills else 0` fallback of `match_percentage` is dead code —
it is still modeled.  A corpus row is assumed to carry a string in
`required_skills` (`NaN` there would make the Python `.split` raise for any
worker; the shipped corpus is fully populated).
-/

/-- The gap-analysis result on the success path. -/
structure GapOk where
  target_job : String
  category : String
  total_required_skills : Nat
  matched_skills : Finset String
  missing_skills : Finset String
  extra_skills : Finset String
  match_percentage : ℚ
deriving DecidableEq

/-- `get_skill_gap_analysis` returns either `{'error': ...}` or the
analysis dict. -/
inductive GapResult where
  | err (msg : String)
  | ok (g : GapOk)
deriving DecidableEq

/-- Python `s.split(', ')`. -/
def splitReq (s : String) : List String := s.splitOn ", "

/-- `JobRecommender.get_skill_gap_analysis`.  The title filter is
`self.jobs_df['job_title'].str.contains(target_job_title, case=False)`,
i.e. a case-insensitive *regular-expression* search by the engine `rePat`;
an invalid title pattern raises `re.error` (`Except.error`). -/
def gapAnalysis (rePat : String → Option (String → Bool)) (jobs : List Job)
    (workerSkills : List String) (title : String) : Except String GapResult :=
  match rePat title with
  | none => .error "re.error"
  | some m =>
    match jobs.filter (fun j => m j.job_title) with
    | [] => .ok (.err "No jobs found for that title")
    | top :: _ =>
      let required := (splitReq top.required_skills).toFinset
      let current := workerSkills.toFinset
      let matched := current ∩ required
      .ok (.ok
        { target_job := top.job_title, category := top.category,
          total_required_skills := required.card,
          matched_skills := matched,
          missing_skills := required \ current,
          extra_skills := current \ required,
          match_percentage :=
            if required ≠ ∅ then round1 ((matched.card : ℚ) / required.card * 100) else 0 })

/-- C8 (amended): the target title is matched as a case-insensitive
regular expression, so the no-match/no-raise clause holds for titles free
of regex metacharacters: for such a title matching no corpus row the call
returns the structured error value without raising; otherwise the analysis
uses the first matching row, and with an empty worker-skill list it
reports no matched skills, the full required set as missing, and a match
percentage of zero.  (An invalid title pattern raises `re.error`, and a
metacharacter title can match rows that do not contain it — see the
counterexample.) -/
theorem gap_analysis_contract :
    ∀ (rePat : String → Option (String → Bool)) (jobs : List Job)
      (ws : List String) (title : String),
      modelsReLit rePat → regexFree title = true →
      ((∀ j ∈ jobs, strContains (pyLower j.job_title) (pyLower title) = false) →
        gapAnalysis rePat jobs ws title = .ok (.err "No jobs found for that title")) ∧
      (∀ j, (jobs.filter
          (fun j => strContains (pyLower j.job_title) (pyLower title))).head? = some j →
        gapAnalysis rePat jobs [] title =
          .ok (.ok
            { target_job := j.job_title, category := j.category,
              total_required_skills := (splitReq j.required_skills).toFinset.card,
              matched_skills := ∅,
              missing_skills := (splitReq j.required_skills).toFinset,
              extra_skills := ∅,
              match_percentage := 0 })) := by
  intro rePat jobs ws title hlit hfree
  rcases hlit title hfree with ⟨m, hm, hms⟩
  have hfil : jobs.filter (fun j => m j.job_title) =
      jobs.filter (fun j => strContains (pyLower j.job_title) (pyLower title)) := by
    apply List.filter_congr
    intro j _
    exact hms j.job_title
  constructor
  · intro hnone
    unfold gapAnalysis
    rw [hm]
    dsimp only
    rw [hfil]
    have : jobs.filter (fun j => strContains (pyLower j.job_title) (pyLower title)) = [] := by
      rw [List.filter_eq_nil_iff]
      intro j hj
      rw [hnone j hj]
      exact Bool.false_ne_true
    rw [this]
  · intro j hj
    unfold gapAnalysis
    rw [hm]
    dsimp only
    rw [hfil]
    rcases hfil2 : jobs.filter (fun j => strContains (pyLower j.job_title) (pyLower title)) with
      _ | ⟨top, rest⟩
    · rw [hfil2] at hj
      cases hj
    · rw [hfil2] at hj
      have htop : top = j := by simpa using hj
      subst htop
      rw [hfil2]
      dsimp only
      have hcur : ([] : List String).toFinset = (∅ : Finset String) := rfl
      have hmatched : ([] : List String).toFinset ∩ (splitReq top.required_skills).toFinset
          = (∅ : Finset String) := by
        rw [hcur]; exact Finset.empty_inter _
      have hmissing : (splitReq top.required_skills).toFinset \ ([] : List String).toFinset
          = (splitReq top.required_skills).toFinset := by
        rw [hcur]; exact Finset.sdiff_empty
      have hextra : ([] : List String).toFinset \ (splitReq top.required_skills).toFinset
          = (∅ : Finset String) := by
        rw [hcur]; exact Finset.empty_sdiff _
      have hpct : (if (splitReq top.required_skills).toFinset ≠ ∅ then
          round1 (((([] : List String).toFinset ∩
            (splitReq top.required_skills).toFinset).card : ℚ) /
              (splitReq top.required_skills).toFinset.card * 100) else 0) = 0 := by
        rw [hmatched]
        by_cases hreq : (splitReq top.required_skills).toFinset = ∅
        · rw [if_neg (by simpa using hreq)]
        · rw [if_pos hreq]
          simp [round1, round_zero]
      rw [hpct, hmatched, hmissing, hextra]

/-- The electrician corpus row of the concrete gap-analysis examples. -/
def exJobElec : Job :=
  ⟨"J1", "Electrician", "Electrical Work", "Electrical Wiring, Fan Installation",
   "2", "15000-20000", "Chennai", "Full-time"⟩

/-- Whether a gap-analysis call ended on the no-jobs-found path. -/
def isNotFound : Except String GapResult → Bool
  | .ok (.err _) => true
  | _ => false

/-- C8 counterexample: on the title `"("` (contained in no job title) the
program raises `re.error` instead of returning the structured error value;
and on the title `".*"`, also contained in no job title, the regex matches
every row, so the no-jobs-found value is *not* returned either — the
original no-match clause fails on both titles. -/
theorem c8_counterexample :
    strContains (pyLower "Electrician") (pyLower "(") = false ∧
    gapAnalysis exRe [exJobElec] [] "(" = .error "re.error" ∧
    strContains (pyLower "Electrician") (pyLower ".*") = false ∧
    isNotFound (gapAnalysis exRe [exJobElec] [] ".*") = false :=
  ⟨by decide, rfl, by decide, rfl⟩

/-- C8 witness: the amended contract at the literal engine and a one-row
corpus — the error value for the absent metacharacter-free title
`"Astronaut"`, and the empty-worker analysis for `"Electrician"`. -/
theorem gap_analysis_contract_witness :
    gapAnalysis litRe [exJobElec] ["Cooking"] "Astronaut" =
      .ok (.err "No jobs found for that title") ∧
    gapAnalysis litRe [exJobElec] [] "Electrician" =
      .ok (.ok
        { target_job := "Electrician", category := "Electrical Work",
          total_required_skills :=
            (splitReq "Electrical Wiring, Fan Installation").toFinset.card,
          matched_skills := ∅,
          missing_skills := (splitReq "Electrical Wiring, Fan Installation").toFinset,
          extra_skills := ∅,
          match_percentage := 0 }) := by
  constructor
  · exact (gap_analysis_contract litRe [exJobElec] ["Cooking"] "Astronaut"
      litRe_models (by decide)).1 (by decide)
  · exact (gap_analysis_contract litRe [exJobElec] [] "Electrician"
      litRe_models (by decide)).2 exJobElec (by decide)

/-!
## `JobRecommender.recommend_learning`

Unlike the job side, the learning side fits a *fresh*
`TfidfVectorizer(max_features=300, ngram_range=(1, 2))` on every call and
writes the scores into `self.learning_df['relevance_score']` in place, so
here the vectorizer itself is embedded:

* default analyzer: lower-case, tokens are maximal `\w\w+` runs (at least
  two word characters; `\w` is modeled over ASCII alphanumerics and `_`,
  which covers the corpora and claims);
* `ngram_range=(1, 2)`: the term sequence is the tokens followed by the
  space-joined adjacent bigrams;
* fitted vocabulary: the distinct terms of the corpus in sorted order,
  restricted to the 300 most frequent terms (ties alphabetical) when there
  are more than 300 — `max_features=300`;
* `smooth_idf=True` (default): `idf t = ln((1+n)/(1+df t)) + 1`;
* a document/query vector has entry `count t · idf t` per vocabulary term;
  `transform` L2-normalizes it and `cosine_similarity` renormalizes, which
  together equal `cosSim` below (scale invariance; an all-zero vector is
  given norm 1 by sklearn's `normalize`, yielding similarity 0, which
  matches Lean's `x / 0 = 0` convention).
-/

/-- Word characters of the default `token_pattern` (ASCII fragment). -/
def isWordChar (c : Char) : Bool := c.isAlphanum || c == '_'

/-- Split a character list into the (possibly empty) chunks between
non-word characters.  The result is always nonempty; a word character is
prepended to the first chunk of the remainder. -/
def splitW : List Char → List (List Char)
  | [] => [[]]
  | c :: cs =>
    if isWordChar c then (c :: (splitW cs).headI) :: (splitW cs).tail
    else [] :: splitW cs

/-- sklearn's default tokenization: lower-case, keep maximal word-character
runs of length at least 2. -/
def tokenize (s : String) : List String :=
  ((splitW (pyLower s).data).filter (fun r => decide (2 ≤ r.length))).map
    (fun r => ⟨r⟩)

/-- Adjacent word bigrams, space-joined (sklearn word n-grams). -/
def bigrams (ts : List String) : List String :=
  List.zipWith (fun a b => a ++ " " ++ b) ts ts.tail

/-- The term sequence for `ngram_range=(1, 2)`. -/
def ngrams12 (ts : List String) : List String := ts ++ bigrams ts

/-- Python `' '.join(...)`. -/
def joinSp : List String → String
  | [] => ""
  | [s] => s
  | s :: rest => s ++ " " ++ joinSp rest

/-- One row of the learning-resources corpus.  `skill_covered` and
`category` may be missing (`NaN`, handled via `.fillna('')`).
`relevance_score` is the column that `recommend_learning` assigns into the
stored dataframe; it is absent (`none`) until the first call. -/
structure Resource where
  resource_id : String
  title : String
  skill_covered : Option String
  category : Option String
  resource_type : String
  platform : String
  language : String
  duration : String
  difficulty : String
  rating : ℚ
  is_free : Bool
  relevance_score : Option ℝ := none

/-- One recommendation dict returned by `recommend_learning`. -/
structure LearnRec where
  resource_id : String
  title : String
  skill_covered : Option String
  resource_type : String
  platform : String
  language : String
  duration : String
  difficulty : String
  rating : ℚ
  is_free : Bool
  relevance_score : ℝ

/-- The combined text field:
`title + ' ' + skill_covered.fillna('') + ' ' + category.fillna('')`. -/
def docText (r : Resource) : String :=
  r.title ++ " " ++ (r.skill_covered.getD "") ++ " " ++ (r.category.getD "")

/-- The term sequence of one corpus row. -/
def docTerms (r : Resource) : List String := ngrams12 (tokenize (docText r))

/-- All term occurrences of the corpus (with multiplicity). -/
def allTerms (corpus : List Resource) : List String := (corpus.map docTerms).flatten

/-- The fitted vocabulary (alphabetical, capped at `max_features = 300` by
corpus-wide term frequency, ties alphabetical). -/
def fitVocab (corpus : List Resource) : List String :=
  let all := sortStr (allTerms corpus).dedup
  if all.length ≤ 300 then all
  else sortStr ((sortKD (fun t => (allTerms corpus).count t) all).take 300)

/-- Document frequency of a term. -/
def dfCount (corpus : List Resource) (t : String) : Nat :=
  (corpus.filter (fun r => decide (t ∈ docTerms r))).length

/-- Smoothed inverse document frequency (`smooth_idf=True`). -/
noncomputable def idf (corpus : List Resource) (t : String) : ℝ :=
  Real.log ((1 + (corpus.length : ℝ)) / (1 + (dfCount corpus t : ℝ))) + 1

/-- The (unnormalized) tf-idf vector of a text over the fitted vocabulary. -/
noncomputable def tfidfVec (corpus : List Resource) (text : String) : List ℝ :=
  (fitVocab corpus).map
    (fun t => ((ngrams12 (tokenize text)).count t : ℝ) * idf corpus t)

/-- Dot product of score vectors. -/
noncomputable def dotL (u v : List ℝ) : ℝ := (List.zipWith (· * ·) u v).sum

/-- Cosine similarity; `x / 0 = 0` reproduces sklearn's zero-vector
convention. -/
noncomputable def cosSim (u v : List ℝ) : ℝ :=
  dotL u v / (Real.sqrt (dotL u u) * Real.sqrt (dotL v v))

/-- `cosine_similarity(search_vector, learning_vectors)[0]`: one relevance
score per corpus row. -/
noncomputable def relevanceScores (corpus : List Resource) (searchText : String) : List ℝ :=
  corpus.map (fun r => cosSim (tfidfVec corpus searchText) (tfidfVec corpus (docText r)))

/-- Python `round(x, 3)` on a score. -/
noncomputable def round3R (x : ℝ) : ℝ := (round (x * 1000) : ℤ) / 1000

/-- The mutable state of a `JobRecommender` instance that
`recommend_learning` reads and writes: the two corpus dataframes.  (The
job-side fitted vectorizer and `job_vectors` are abstracted into the `sim`
parameter of `recommendJobs` and are read-only.) -/
structure RecState where
  jobs_df : List Job
  learning_df : List Resource

/-- The output dict for one recommended resource. -/
noncomputable def mkLearnRec (r : Resource) : LearnRec :=
  { resource_id := r.resource_id, title := r.title,
    skill_covered := r.skill_covered, resource_type := r.resource_type,
    platform := r.platform, language := r.language, duration := r.duration,
    difficulty := r.difficulty, rating := r.rating, is_free := r.is_free,
    relevance_score := round3R (r.relevance_score.getD 0) }

/-- `JobRecommender.recommend_learning`.  Note the two state effects of the
Python code: a fresh vectorizer is fitted on every call, and
`self.learning_df['relevance_score'] = similarities` assigns the scores
into the stored dataframe, which `nlargest` then ranks.  The returned pair
is (formatted recommendations, recommender state after the call). -/
noncomputable def recommendLearning (st : RecState)
    (workerSkills targetSkills : List String) (topK : Nat) :
    List LearnRec × RecState :=
  if st.learning_df.isEmpty then ([], st)
  else
    let search := if targetSkills ≠ [] then targetSkills else workerSkills
    let scores := relevanceScores st.learning_df (joinSp search)
    let newLearning :=
      List.zipWith (fun r sc => { r with relevance_score := some sc })
        st.learning_df scores
    let top :=
      (sortKD (fun r : Resource => r.relevance_score.getD 0) newLearning).take topK
    (top.map mkLearnRec, { st with learning_df := newLearning })

/-- Erase the relevance-score column (used to state which columns a call
may change). -/
def clearScore (r : Resource) : Resource := { r with relevance_score := none }

theorem map_clearScore_zipWith (l : List Resource) (scores : List ℝ)
    (h : l.length ≤ scores.length) :
    (List.zipWith (fun r sc => { r with relevance_score := some sc }) l scores).map
        clearScore = l.map clearScore := by
  induction l generalizing scores with
  | nil => simp
  | cons r rest ih =>
    cases scores with
    | nil => simp at h
    | cons s ss =>
      simp only [List.zipWith_cons_cons, List.map_cons, List.cons.injEq]
      exact ⟨rfl, ih ss (Nat.le_of_succ_le_succ h)⟩

/-- C3 (amended): every `recommend_learning` call refits its vector space
and assigns the `relevance_score` column of the stored learning corpus in
place; what it preserves is the job corpus (and the job-side fitted state,
which it never touches) and every other column of the learning corpus. -/
theorem recommend_learning_state_effect :
    ∀ (st : RecState) (ws ts : List String) (k : Nat),
      (recommendLearning st ws ts k).2.jobs_df = st.jobs_df ∧
      (recommendLearning st ws ts k).2.learning_df.map clearScore =
        st.learning_df.map clearScore := by
  intro st ws ts k
  unfold recommendLearning
  by_cases h : st.learning_df.isEmpty
  · rw [if_pos h]
    exact ⟨rfl, rfl⟩
  · rw [if_neg h]
    refine ⟨rfl, ?_⟩
    apply map_clearScore_zipWith
    simp [relevanceScores]

/-- The one-row learning corpus used in the concrete examples: its single
resource is titled `"wiring pipe"`, so the fitted vocabulary is
`["pipe", "wiring", "wiring pipe"]`. -/
def exRes : Resource :=
  { resource_id := "L1", title := "wiring pipe", skill_covered := none,
    category := none, resource_type := "Video", platform := "YouTube",
    language := "Hindi", duration := "2h", difficulty := "Beginner",
    rating := 45/10, is_free := true }

/-- A recommender state holding the one-row learning corpus. -/
def exLearnState : RecState := { jobs_df := [], learning_df := [exRes] }

/-- C3 counterexample: the stored learning corpus has no
`relevance_score` column before the first `recommend_learning` call, and
the call changes the stored corpus in place (the column appears), so the
stored corpus and fitted state are *not* frozen across
`recommend_learning` calls. -/
theorem c3_counterexample :
    exLearnState.learning_df.map (fun r => r.relevance_score) = [none] ∧
    (recommendLearning exLearnState ["wiring"] [] 10).2.learning_df.map
        (fun r => r.relevance_score) ≠ [none] := by
  refine ⟨rfl, ?_⟩
  simp [recommendLearning, relevanceScores, exLearnState]

theorem mem_zipWith {α β γ : Type} {f : α → β → γ} {l : List α} {l' : List β} {c : γ}
    (h : c ∈ List.zipWith f l l') : ∃ a b, a ∈ l ∧ b ∈ l' ∧ c = f a b := by
  induction l generalizing l' with
  | nil => simp at h
  | cons x xs ih =>
    cases l' with
    | nil => simp at h
    | cons y ys =>
      rw [List.zipWith_cons_cons] at h
      rcases List.mem_cons.mp h with rfl | h
      · exact ⟨x, y, List.mem_cons_self _ _, List.mem_cons_self _ _, rfl⟩
      · rcases ih h with ⟨a, b, ha, hb, rfl⟩
        exact ⟨a, b, List.mem_cons_of_mem _ ha, List.mem_cons_of_mem _ hb, rfl⟩

theorem dotL_eq_zero_of_left_zero {u v : List ℝ} (h : ∀ x ∈ u, x = 0) :
    dotL u v = 0 := by
  induction u generalizing v with
  | nil => simp [dotL]
  | cons x xs ih =>
    cases v with
    | nil => simp [dotL]
    | cons y ys =>
      have hx : x = 0 := h x (List.mem_cons_self _ _)
      have hxs : ∀ z ∈ xs, z = 0 := fun z hz => h z (List.mem_cons_of_mem _ hz)
      simp only [dotL, List.zipWith_cons_cons, List.sum_cons, hx, zero_mul, zero_add]
      exact ih hxs

theorem tokenize_empty : tokenize "" = [] := rfl

theorem tfidfVec_empty_text (corpus : List Resource) :
    ∀ x ∈ tfidfVec corpus "", x = 0 := by
  intro x hx
  rcases List.mem_map.mp hx with ⟨t, _, rfl⟩
  simp [tokenize_empty, ngrams12, bigrams]

theorem relevanceScores_empty_text (corpus : List Resource) :
    ∀ x ∈ relevanceScores corpus "", x = 0 := by
  intro x hx
  rcases List.mem_map.mp hx with ⟨r, _, rfl⟩
  unfold cosSim
  rw [dotL_eq_zero_of_left_zero (tfidfVec_empty_text corpus)]
  exact zero_div _

theorem relevanceScores_length (corpus : List Resource) (text : String) :
    (relevanceScores corpus text).length = corpus.length := by
  simp [relevanceScores]

theorem round3R_zero : round3R 0 = 0 := by
  simp [round3R]

/-- C10: with a nonempty learning corpus, `recommend_learning([], None)`
does not return `[]` — the guard only checks the corpus.  The empty search
text produces the zero vector, every resource scores 0, and
`min(top_k, len(corpus))` resources are still returned; `recommend_jobs`
by contrast returns `[]` whenever the worker-skill list is empty.
(Python's `target_skills=None` default and an empty list are both falsy in
`if target_skills:`, so `[]` models both.) -/
theorem recommend_learning_empty_skills :
    ∀ (st : RecState) (k : Nat), st.learning_df ≠ [] → 1 ≤ k →
      (∀ x ∈ relevanceScores st.learning_df (joinSp []), x = 0) ∧
      (recommendLearning st [] [] k).1.length = min k st.learning_df.length ∧
      (recommendLearning st [] [] k).1 ≠ [] ∧
      (∀ r ∈ (recommendLearning st [] [] k).1, r.relevance_score = 0) ∧
      (∀ (rePat : String → Option (String → Bool)) (sim : List String → List ℚ)
          (jobs : List Job) (loc : Option String) (k' : Nat),
        recommendJobs rePat sim jobs [] loc k' = .ok []) := by
  intro st k hne hk
  have hscores : ∀ x ∈ relevanceScores st.learning_df (joinSp []), x = 0 :=
    relevanceScores_empty_text st.learning_df
  have hnotempty : st.learning_df.isEmpty = false := by
    cases hl : st.learning_df with
    | nil => exact absurd hl hne
    | cons a l => rfl
  have hreduce : recommendLearning st [] [] k =
      (((sortKD (fun r : Resource => r.relevance_score.getD 0)
          (List.zipWith (fun r sc => { r with relevance_score := some sc })
            st.learning_df (relevanceScores st.learning_df (joinSp [])))).take k).map
        mkLearnRec,
       { st with learning_df :=
          (List.zipWith (fun r sc => { r with relevance_score := some sc })
            st.learning_df (relevanceScores st.learning_df (joinSp []))) }) := by
    unfold recommendLearning
    rw [if_neg (by rw [hnotempty]; exact Bool.false_ne_true)]
    rfl
  have hzipLen :
      (List.zipWith (fun r sc => { r with relevance_score := some sc })
        st.learning_df (relevanceScores st.learning_df (joinSp []))).length =
        st.learning_df.length := by
    rw [List.length_zipWith, relevanceScores_length, min_self]
  have hlen : (recommendLearning st [] [] k).1.length = min k st.learning_df.length := by
    rw [hreduce]
    simp only [List.length_map, List.length_take, sortKD_length, hzipLen]
  refine ⟨hscores, hlen, ?_, ?_, ?_⟩
  · intro hcontra
    have := congrArg List.length hcontra
    rw [hlen] at this
    simp only [List.length_nil] at this
    rcases Nat.min_eq_zero_iff.mp this with h | h
    · omega
    · exact hne (List.length_eq_zero.mp h)
  · intro r hr
    rw [hreduce] at hr
    rcases List.mem_map.mp hr with ⟨res, hres, rfl⟩
    have hres' := (mem_sortKD _ _ _).mp (List.mem_of_mem_take hres)
    rcases mem_zipWith hres' with ⟨a, sc, _, hsc, rfl⟩
    have : sc = 0 := hscores sc hsc
    simp [mkLearnRec, this, round3R_zero]
  · intro rePat sim jobs loc k'
    unfold recommendJobs
    rw [if_pos (Or.inr rfl)]

/-! ### Tokenization lemmas for the permutation analysis (C6) -/

theorem pyLower_data (s : String) : (pyLower s).data = s.data.map Char.toLower := rfl

theorem pyLower_append (a b : String) :
    (pyLower (a ++ b)).data = (pyLower a).data ++ (pyLower b).data := by
  rw [pyLower_data, pyLower_data, pyLower_data, String.data_append, List.map_append]

theorem splitW_cons (c : Char) (cs : List Char) :
    splitW (c :: cs) =
      if isWordChar c then (c :: (splitW cs).headI) :: (splitW cs).tail
      else [] :: splitW cs := rfl

theorem splitW_ne_nil : ∀ l : List Char, splitW l ≠ [] := by
  intro l
  cases l with
  | nil => simp [splitW]
  | cons c cs =>
    rw [splitW_cons]
    split <;> simp

theorem splitW_append_sep {c : Char} (hc : isWordChar c = false) :
    ∀ xs ys : List Char, splitW (xs ++ c :: ys) = splitW xs ++ splitW ys := by
  intro xs
  induction xs with
  | nil =>
    intro ys
    show splitW (c :: ys) = splitW [] ++ splitW ys
    rw [splitW_cons, if_neg (by rw [hc]; exact Bool.false_ne_true)]
    rfl
  | cons x xs' ih =>
    intro ys
    show splitW (x :: (xs' ++ c :: ys)) = splitW (x :: xs') ++ splitW ys
    rw [splitW_cons x (xs' ++ c :: ys), splitW_cons x xs']
    rcases hs : splitW xs' with _ | ⟨r, rs⟩
    · exact absurd hs (splitW_ne_nil xs')
    · by_cases hx : isWordChar x = true
      · rw [if_pos hx, if_pos hx, ih ys, hs]
        simp
      · rw [if_neg hx, if_neg hx, ih ys, hs]
        rfl

theorem tokenize_append_space (a b : String) :
    tokenize (a ++ " " ++ b) = tokenize a ++ tokenize b := by
  unfold tokenize
  have hdata : (pyLower (a ++ " " ++ b)).data =
      (pyLower a).data ++ ' ' :: (pyLower b).data := by
    rw [pyLower_append, pyLower_append]
    rw [List.append_assoc]
    rfl
  rw [hdata, splitW_append_sep (by decide), List.filter_append, List.map_append]

theorem tokenize_joinSp : ∀ L : List String,
    tokenize (joinSp L) = (L.map tokenize).flatten := by
  intro L
  induction L with
  | nil => rfl
  | cons s rest ih =>
    cases rest with
    | nil => simp [joinSp, tokenize_empty]
    | cons s' rest' =>
      show tokenize (s ++ " " ++ joinSp (s' :: rest')) = _
      rw [tokenize_append_space, ih]
      simp

/-- The bigram that straddles the boundary between two token lists (empty
when either side has no tokens). -/
def midGlue (xs ys : List String) : List String :=
  match xs.getLast?, ys.head? with
  | some a, some b => [a ++ " " ++ b]
  | _, _ => []

theorem bigrams_cons_cons (a b : String) (l : List String) :
    bigrams (a :: b :: l) = (a ++ " " ++ b) :: bigrams (b :: l) := rfl

theorem bigrams_append : ∀ xs ys : List String,
    bigrams (xs ++ ys) = bigrams xs ++ midGlue xs ys ++ bigrams ys := by
  intro xs
  induction xs with
  | nil =>
    intro ys
    simp [bigrams, midGlue]
  | cons x xs' ih =>
    intro ys
    cases xs' with
    | nil =>
      cases ys with
      | nil => simp [bigrams, midGlue]
      | cons y ys' =>
        show bigrams (x :: y :: ys') = bigrams [x] ++ midGlue [x] (y :: ys') ++ bigrams (y :: ys')
        rw [bigrams_cons_cons]
        simp [bigrams, midGlue]
    | cons x₂ rest =>
      have hmid : midGlue (x :: x₂ :: rest) ys = midGlue (x₂ :: rest) ys := by
        unfold midGlue
        rw [List.getLast?_cons_cons]
      calc bigrams ((x :: x₂ :: rest) ++ ys)
          = bigrams (x :: x₂ :: (rest ++ ys)) := by simp
        _ = (x ++ " " ++ x₂) :: bigrams (x₂ :: (rest ++ ys)) := bigrams_cons_cons _ _ _
        _ = (x ++ " " ++ x₂) :: bigrams ((x₂ :: rest) ++ ys) := by simp
        _ = (x ++ " " ++ x₂) ::
              (bigrams (x₂ :: rest) ++ midGlue (x₂ :: rest) ys ++ bigrams ys) := by
            rw [ih ys]
        _ = ((x ++ " " ++ x₂) :: bigrams (x₂ :: rest)) ++ midGlue (x₂ :: rest) ys ++
              bigrams ys := by simp
        _ = bigrams (x :: x₂ :: rest) ++ midGlue (x :: x₂ :: rest) ys ++ bigrams ys := by
            rw [bigrams_cons_cons, hmid]

theorem mem_midGlue {t : String} {xs ys : List String} (h : t ∈ midGlue xs ys) :
    ∃ a b, xs.getLast? = some a ∧ ys.head? = some b ∧ t = a ++ " " ++ b := by
  unfold midGlue at h
  rcases hlast : xs.getLast? with _ | a <;> rcases hhead : ys.head? with _ | b <;>
    rw [hlast, hhead] at h <;> simp at h
  exact ⟨a, b, rfl, rfl, h⟩

theorem midGlue_of {xs ys : List String} {a b : String}
    (hl : xs.getLast? = some a) (hh : ys.head? = some b) :
    midGlue xs ys = [a ++ " " ++ b] := by
  unfold midGlue
  rw [hl, hh]

theorem head?_flatten {b : String} :
    ∀ L : List (List String), L.flatten.head? = some b → ∃ l ∈ L, l.head? = some b := by
  intro L
  induction L with
  | nil => intro h; cases h
  | cons l rest ih =>
    intro h
    cases l with
    | nil =>
      rcases ih (by simpa using h) with ⟨l', hl', hh⟩
      exact ⟨l', List.mem_cons_of_mem _ hl', hh⟩
    | cons x l' =>
      refine ⟨x :: l', List.mem_cons_self _ _, ?_⟩
      have hx : x = b := by simpa using h
      simp [hx]

theorem count_bigrams_flatten (t : String) :
    ∀ Ls : List (List String),
      (∀ l₁ ∈ Ls, ∀ l₂ ∈ Ls, t ∉ midGlue l₁ l₂) →
      (bigrams Ls.flatten).count t = (Ls.map (fun l => (bigrams l).count t)).sum := by
  intro Ls
  induction Ls with
  | nil => intro _; rfl
  | cons l rest ih =>
    intro hjunc
    have hflat : (l :: rest).flatten = l ++ rest.flatten := rfl
    rw [hflat, bigrams_append, List.count_append, List.count_append]
    have hmid : (midGlue l rest.flatten).count t = 0 := by
      rw [List.count_eq_zero]
      intro hmem
      rcases mem_midGlue hmem with ⟨a, b, hlast, hhead, rfl⟩
      rcases head?_flatten rest hhead with ⟨l', hl', hh⟩
      have : (a ++ " " ++ b) ∈ midGlue l l' := by
        rw [midGlue_of hlast hh]
        exact List.mem_cons_self _ _
      exact hjunc l (List.mem_cons_self _ _) l' (List.mem_cons_of_mem _ hl') this
    have hrest : (bigrams rest.flatten).count t =
        (rest.map (fun l => (bigrams l).count t)).sum := by
      refine ih ?_
      intro l₁ h₁ l₂ h₂
      exact hjunc l₁ (List.mem_cons_of_mem _ h₁) l₂ (List.mem_cons_of_mem _ h₂)
    rw [hmid, hrest]
    simp

/-- Counting any term in the `(1,2)`-gram sequence of a joined skill list
is invariant under permutation of the skills, provided the term is not a
junction bigram of any (ordered) pair of skills in the list. -/
theorem count_ngrams_joinSp_perm (t : String) {X X' : List String} (hperm : X.Perm X')
    (hjunc : ∀ s₁ ∈ X, ∀ s₂ ∈ X, t ∉ midGlue (tokenize s₁) (tokenize s₂)) :
    (ngrams12 (tokenize (joinSp X))).count t =
      (ngrams12 (tokenize (joinSp X'))).count t := by
  have hjunc' : ∀ s₁ ∈ X', ∀ s₂ ∈ X', t ∉ midGlue (tokenize s₁) (tokenize s₂) :=
    fun s₁ h₁ s₂ h₂ => hjunc s₁ (hperm.mem_iff.mpr h₁) s₂ (hperm.mem_iff.mpr h₂)
  have hj1 : ∀ l₁ ∈ X.map tokenize, ∀ l₂ ∈ X.map tokenize, t ∉ midGlue l₁ l₂ := by
    intro l₁ h₁ l₂ h₂
    rcases List.mem_map.mp h₁ with ⟨s₁, hs₁, rfl⟩
    rcases List.mem_map.mp h₂ with ⟨s₂, hs₂, rfl⟩
    exact hjunc s₁ hs₁ s₂ hs₂
  have hj2 : ∀ l₁ ∈ X'.map tokenize, ∀ l₂ ∈ X'.map tokenize, t ∉ midGlue l₁ l₂ := by
    intro l₁ h₁ l₂ h₂
    rcases List.mem_map.mp h₁ with ⟨s₁, hs₁, rfl⟩
    rcases List.mem_map.mp h₂ with ⟨s₂, hs₂, rfl⟩
    exact hjunc' s₁ hs₁ s₂ hs₂
  unfold ngrams12
  rw [List.count_append, List.count_append, tokenize_joinSp, tokenize_joinSp,
    count_bigrams_flatten t _ hj1, count_bigrams_flatten t _ hj2]
  have h1 : ((X.map tokenize).flatten).count t = ((X'.map tokenize).flatten).count t :=
    ((hperm.map tokenize).flatten).count_eq t
  have h2 : ((X.map tokenize).map (fun l => (bigrams l).count t)).sum =
      ((X'.map tokenize).map (fun l => (bigrams l).count t)).sum :=
    ((hperm.map tokenize).map (fun l => (bigrams l).count t)).sum_eq
  rw [h1, h2]

/-- C6 (amended): `recommend_learning` is invariant under permutation of
`target_skills` provided no fitted-vocabulary term is a junction bigram —
the space-joined pair of the last token of one skill of the list and the
first token of another.  (With `ngram_range=(1, 2)`, a junction bigram can
change the search vector and break the invariance; without junction
bigrams, both the unigram and bigram counts, hence the scores and the
whole result, are permutation-invariant.) -/
theorem recommend_learning_perm_target :
    ∀ (st : RecState) (ws X X' : List String) (k : Nat),
      X.Perm X' →
      (∀ t ∈ fitVocab st.learning_df, ∀ s₁ ∈ X, ∀ s₂ ∈ X,
        t ∉ midGlue (tokenize s₁) (tokenize s₂)) →
      recommendLearning st ws X k = recommendLearning st ws X' k := by
  intro st ws X X' k hperm hjunc
  by_cases hX : X = []
  · have hX' : X' = [] := by
      subst hX
      exact hperm.symm.eq_nil
    rw [hX, hX']
  · have hX' : X' ≠ [] := by
      intro h
      rw [h] at hperm
      exact hX hperm.eq_nil
    have hvec : tfidfVec st.learning_df (joinSp X) = tfidfVec st.learning_df (joinSp X') := by
      unfold tfidfVec
      apply List.map_congr_left
      intro t ht
      exact congrArg (fun n : ℕ => ((n : ℝ) * idf st.learning_df t))
        (count_ngrams_joinSp_perm t hperm (hjunc t ht))
    have hscores : relevanceScores st.learning_df (joinSp X) =
        relevanceScores st.learning_df (joinSp X') := by
      unfold relevanceScores
      apply List.map_congr_left
      intro r _
      rw [hvec]
    unfold recommendLearning
    by_cases hemp : st.learning_df.isEmpty
    · rw [if_pos hemp, if_pos hemp]
    · rw [if_neg hemp, if_neg hemp]
      simp only [if_pos hX, if_pos hX', hscores]

theorem idf_ex_one (t : String) (h : dfCount exLearnState.learning_df t = 1) :
    idf exLearnState.learning_df t = 1 := by
  unfold idf
  rw [h]
  have hlen : exLearnState.learning_df.length = 1 := rfl
  rw [hlen]
  norm_num

theorem tfidf_ex_search₁ :
    tfidfVec exLearnState.learning_df (joinSp ["wiring", "pipe"]) = [1, 1, 1] := by
  unfold tfidfVec
  rw [show fitVocab exLearnState.learning_df = ["pipe", "wiring", "wiring pipe"] from by decide]
  rw [List.map_cons, List.map_cons, List.map_cons, List.map_nil]
  rw [idf_ex_one "pipe" (by decide), idf_ex_one "wiring" (by decide),
    idf_ex_one "wiring pipe" (by decide)]
  rw [show (ngrams12 (tokenize (joinSp ["wiring", "pipe"]))).count "pipe" = 1 from by decide,
    show (ngrams12 (tokenize (joinSp ["wiring", "pipe"]))).count "wiring" = 1 from by decide,
    show (ngrams12 (tokenize (joinSp ["wiring", "pipe"]))).count "wiring pipe" = 1 from by decide]
  norm_num

theorem tfidf_ex_search₂ :
    tfidfVec exLearnState.learning_df (joinSp ["pipe", "wiring"]) = [1, 1, 0] := by
  unfold tfidfVec
  rw [show fitVocab exLearnState.learning_df = ["pipe", "wiring", "wiring pipe"] from by decide]
  rw [List.map_cons, List.map_cons, List.map_cons, List.map_nil]
  rw [idf_ex_one "pipe" (by decide), idf_ex_one "wiring" (by decide),
    idf_ex_one "wiring pipe" (by decide)]
  rw [show (ngrams12 (tokenize (joinSp ["pipe", "wiring"]))).count "pipe" = 1 from by decide,
    show (ngrams12 (tokenize (joinSp ["pipe", "wiring"]))).count "wiring" = 1 from by decide,
    show (ngrams12 (tokenize (joinSp ["pipe", "wiring"]))).count "wiring pipe" = 0 from by decide]
  norm_num

theorem tfidf_ex_doc :
    tfidfVec exLearnState.learning_df (docText exRes) = [1, 1, 1] := by
  unfold tfidfVec
  rw [show fitVocab exLearnState.learning_df = ["pipe", "wiring", "wiring pipe"] from by decide]
  rw [List.map_cons, List.map_cons, List.map_cons, List.map_nil]
  rw [idf_ex_one "pipe" (by decide), idf_ex_one "wiring" (by decide),
    idf_ex_one "wiring pipe" (by decide)]
  rw [show (ngrams12 (tokenize (docText exRes))).count "pipe" = 1 from by decide,
    show (ngrams12 (tokenize (docText exRes))).count "wiring" = 1 from by decide,
    show (ngrams12 (tokenize (docText exRes))).count "wiring pipe" = 1 from by decide]
  norm_num

/-- C6 counterexample: over the one-resource corpus whose document text is
`"wiring pipe"`, the target lists `["wiring", "pipe"]` and
`["pipe", "wiring"]` are permutations of each other, yet
`recommend_learning` scores the resource `1` for the first (the search text
`"wiring pipe"` reproduces the vocabulary bigram) and `2/(√2·√3) < 1` for
the second (the junction bigram `"pipe wiring"` is not in the vocabulary)
— the relevance scores, and hence the returned records, differ. -/
theorem c6_counterexample :
    List.Perm ["wiring", "pipe"] ["pipe", "wiring"] ∧
    relevanceScores exLearnState.learning_df (joinSp ["wiring", "pipe"]) ≠
      relevanceScores exLearnState.learning_df (joinSp ["pipe", "wiring"]) := by
  refine ⟨by decide, ?_⟩
  have h₁ : relevanceScores exLearnState.learning_df (joinSp ["wiring", "pipe"]) =
      [cosSim (tfidfVec exLearnState.learning_df (joinSp ["wiring", "pipe"]))
        (tfidfVec exLearnState.learning_df (docText exRes))] := rfl
  have h₂ : relevanceScores exLearnState.learning_df (joinSp ["pipe", "wiring"]) =
      [cosSim (tfidfVec exLearnState.learning_df (joinSp ["pipe", "wiring"]))
        (tfidfVec exLearnState.learning_df (docText exRes))] := rfl
  rw [h₁, h₂, tfidf_ex_search₁, tfidf_ex_search₂, tfidf_ex_doc]
  have hdot11 : dotL [1, 1, 1] [1, 1, 1] = (3 : ℝ) := by
    unfold dotL
    norm_num
  have hdot21 : dotL [1, 1, 0] [1, 1, 1] = (2 : ℝ) := by
    unfold dotL
    norm_num
  have hdot22 : dotL [1, 1, 0] [1, 1, 0] = (2 : ℝ) := by
    unfold dotL
    norm_num
  have hc₁ : cosSim [1, 1, 1] [1, 1, 1] = (1 : ℝ) := by
    unfold cosSim
    rw [hdot11, Real.mul_self_sqrt (by norm_num : (0:ℝ) ≤ 3)]
    norm_num
  have hc₂ : cosSim [1, 1, 0] [1, 1, 1] = 2 / (Real.sqrt 2 * Real.sqrt 3) := by
    unfold cosSim
    rw [hdot21, hdot22, hdot11]
  rw [hc₁, hc₂]
  intro hcontra
  have heq : (1 : ℝ) = 2 / (Real.sqrt 2 * Real.sqrt 3) := by
    simpa using hcontra
  have h2 : Real.sqrt 2 ^ 2 = 2 := Real.sq_sqrt (by norm_num)
  have h3 : Real.sqrt 3 ^ 2 = 3 := Real.sq_sqrt (by norm_num)
  have hpos2 : 0 < Real.sqrt 2 := Real.sqrt_pos.mpr (by norm_num)
  have hpos3 : 0 < Real.sqrt 3 := Real.sqrt_pos.mpr (by norm_num)
  have hmul : Real.sqrt 2 * Real.sqrt 3 = 2 := by
    field_simp at heq
    linarith [heq]
  have : (Real.sqrt 2 * Real.sqrt 3) ^ 2 = 4 := by
    rw [hmul]
    norm_num
  rw [mul_pow, h2, h3] at this
  norm_num at this

/-- C6 witness: the amended permutation-invariance theorem at the concrete
corpus, with target lists `["tap", "wiring"]` and `["wiring", "tap"]` (no
junction bigram of these skills is in the fitted vocabulary). -/
theorem c6_witness :
    recommendLearning exLearnState [] ["tap", "wiring"] 10 =
      recommendLearning exLearnState [] ["wiring", "tap"] 10 :=
  recommend_learning_perm_target exLearnState [] ["tap", "wiring"] ["wiring", "tap"] 10
    (by decide) (by decide)

/-- C10 witness: the empty-skills theorem at the concrete one-resource
corpus with the default `top_k = 10`. -/
theorem recommend_learning_empty_skills_witness :
    (recommendLearning exLearnState [] [] 10).1.length =
        min 10 exLearnState.learning_df.length ∧
      (recommendLearning exLearnState [] [] 10).1 ≠ [] := by
  have h := recommend_learning_empty_skills exLearnState 10
    (by simp [exLearnState]) (by norm_num)
  exact ⟨h.2.1, h.2.2.1⟩

/-!
## `SkillSyncPipeline` (`ml_module/ml_pipeline.py`)

The orchestrator's collaborators outside this repository enter as
parameters of `PipelineEnv`: the Sentence-BERT score vectors (`simsFor`,
consumed by `normalize_skill`), the job-side TF-IDF similarities
(`jobSim`), the recommenders' regex engine (`rePat`, never consulted here
since `process_text_input` passes `location=None`), the taxonomy category
lookup (`cat`, used by
`_get_category` through `extract_from_utterance`, a CSV lookup), and the
regular-expression experience extractor (`expYears`).  The audio processor
is modeled as `Option Transcription`: `None` when Whisper was not
initialized, otherwise the transcription result for the given file.

A Python dict that simply lacks a key (such as the missing `'success'`
key of `process_text_input`'s profile) is modeled with an `Option` field
set to `none`; `processing_time` (wall-clock) is not modeled.
`raise Exception(...)` in `transcribe_audio` is `Except.error`.

`process_text_input` deduplicates with
`list({s['normalized_skill'] for s in normalized_skills})` — a Python
`set`, whose iteration order depends on the process's randomized string
hashes.  The embedding uses `List.dedup` as *one* enumeration of that set;
no theorem below depends on the chosen order.
-/

/-- The `self.job_titles` table of `extract_job_title`. -/
def jobTitles : List (String × List String) := [
  ("Electrician", ["electrician", "electric", "इलेक्ट्रीशियन", "மின்சார", "ఎలక్ట్రీషియన్", "ಎಲೆಕ್ಟ್ರಿಷಿಯನ್"]),
  ("Plumber", ["plumber", "plumbing", "प्लंबर", "பிளம்பர்", "ప్లంబర్", "ಪ್ಲಂಬರ್"]),
  ("Carpenter", ["carpenter", "carpentry", "बढ़ई", "தச்சு", "వడ్రంగి", "ಬಡಗಿ"]),
  ("Welder", ["welder", "welding", "वेल्डर", "வெல்டர்", "వెల్డర్", "ವೆಲ್ಡರ್"]),
  ("Painter", ["painter", "painting", "पेंटर", "ஓவியர்", "పెయింటర్", "ಪೇಂಟರ್"]),
  ("Driver", ["driver", "driving", "ड्राइवर", "ஓட்டுநர்", "డ్రైవర్", "ಚಾಲಕ"]),
  ("Tailor", ["tailor", "दर्जी", "தையல்காரர்", "దర్జీ", "ಟೈಲರ್"]),
  ("Mechanic", ["mechanic", "मैकेनिक", "மெக்கானிக்", "మెకానిక్", "ಮೆಕ್ಯಾನಿಕ್"]),
  ("Beautician", ["beautician", "beauty", "parlor", "ब्यूटीशियन", "அழகு", "బ్యూటీషియన్", "ಬ್ಯೂಟಿ"])]

/-- `MultilingualSkillExtractor.extract_job_title`: first title (table
order) one of whose keywords occurs in the lower-cased text; `""` if none. -/
def extractJobTitle (text : String) : String :=
  match jobTitles.find?
    (fun p => p.2.any (fun kw => strContains (pyLower text) (pyLower kw))) with
  | some p => p.1
  | none => ""

/-- The transcription collaborator's result dict (Whisper). -/
structure Transcription where
  success : Bool
  text : String
  language : String
  duration : ℚ
  segments : List String
  error : Option String

/-- The `extracted_info` sub-record of a profile. -/
structure ExtractedInfo where
  raw_skills : List String
  normalized_skills : List String
  job_title : String
  experience_years : Nat
  categories : List String

/-- The profile dict assembled by the orchestrator.  Keys that a given
code path does not put into the dict are `none` / `[]`. -/
structure Profile where
  success : Option Bool
  error : Option String
  input_text : Option String
  extracted_info : Option ExtractedInfo
  job_recommendations : List JobRec
  learning_recommendations : List LearnRec
  skill_details : List NormMatch
  transcription : Option Transcription
  audio_file : Option String

/-- The injected collaborators of the pipeline. -/
structure PipelineEnv where
  tax : List TaxRow
  simsFor : String → List ℚ
  jobSim : List String → List ℚ
  rePat : String → Option (String → Bool)
  cat : String → String
  expYears : String → Nat

/-- `SkillSyncPipeline.process_text_input`: extract, normalize each raw
skill at threshold `0.5` / `top_k = 1` keeping the best match, deduplicate
the normalized names, then recommend jobs (`top_k=10`, top 5 kept in the
profile) and learning resources (`top_k=5`).  The returned pair carries
the recommender state after the call (`recommend_learning` mutates it). -/
noncomputable def processTextInput (env : PipelineEnv) (st : RecState) (text : String) :
    Profile × RecState :=
  let extraction := extractSkills text
  let raw_skills := extractedNames extraction
  let normalized := raw_skills.filterMap
    (fun raw => (normalizeSkill env.tax (env.simsFor raw) raw (1/2) 1).head?)
  let unique_normalized := (normalized.map (·.normalized_skill)).dedup
  let jobRecs :=
    match recommendJobs env.rePat env.jobSim st.jobs_df unique_normalized none 10 with
    | .ok l => l
    | .error _ => []    -- unreachable: with location=None the regex engine is never consulted
  let pair := recommendLearning st unique_normalized [] 5
  ({ success := none, error := none, input_text := some text,
     extracted_info := some
       { raw_skills := raw_skills, normalized_skills := unique_normalized,
         job_title := extractJobTitle text, experience_years := env.expYears text,
         categories := (extraction.map (fun e => env.cat e.skill)).dedup },
     job_recommendations := jobRecs.take 5,
     learning_recommendations := pair.1,
     skill_details := normalized,
     transcription := none, audio_file := none },
   pair.2)

/-- `SkillSyncPipeline.process_audio_input` (with `transcribe_audio`
inlined): an uninitialized audio processor raises; a failed transcription
short-circuits into a tagged failure record; a successful one runs
`process_text_input` and merges the transcription into the profile. -/
noncomputable def processAudioInput (env : PipelineEnv) (st : RecState)
    (audioProc : Option Transcription) (audioPath : String) :
    Except String (Profile × RecState) :=
  match audioProc with
  | none => .error "Audio processor not initialized. Set use_whisper=True"
  | some tr =>
    if tr.success then
      let pair := processTextInput env st tr.text
      .ok ({ pair.1 with
             transcription := some tr
             audio_file := some audioPath
             success := some true }, pair.2)
    else
      .ok ({ success := some false, error := some "Transcription failed",
             transcription := some tr, input_text := none, extracted_info := none,
             job_recommendations := [], learning_recommendations := [],
             skill_details := [], audio_file := none }, st)

/-- C9 (amended): `process_audio_input` raises when the audio processor is
uninitialized; with a processor it always returns a record carrying an
explicit success flag (mirroring the transcription's flag); and the
profile returned by `process_text_input` carries no success flag at all. -/
theorem orchestrator_success_flag_amended :
    (∀ (env : PipelineEnv) (st : RecState) (path : String),
      processAudioInput env st none path =
        .error "Audio processor not initialized. Set use_whisper=True") ∧
    (∀ (env : PipelineEnv) (st : RecState) (path : String) (tr : Transcription),
      ∃ p st', processAudioInput env st (some tr) path = .ok (p, st') ∧
        p.success = some tr.success) ∧
    (∀ (env : PipelineEnv) (st : RecState) (text : String),
      (processTextInput env st text).1.success = none) := by
  refine ⟨fun env st path => rfl, ?_, fun env st text => rfl⟩
  intro env st path tr
  unfold processAudioInput
  cases htr : tr.success with
  | true =>
    simp only [htr, if_true]
    exact ⟨_, _, rfl, rfl⟩
  | false =>
    simp only [htr, Bool.false_eq_true, if_false]
    exact ⟨_, _, rfl, rfl⟩

/-- The pipeline environment used for concrete orchestrator runs. -/
def exEnv : PipelineEnv :=
  { tax := [], simsFor := fun _ => [], jobSim := fun _ => [], rePat := litRe,
    cat := fun _ => "General Skills", expYears := fun _ => 0 }

/-- C9 counterexample: `process_text_input` returns a profile with *no*
success flag, and `process_audio_input` on a pipeline whose audio
processor was never initialized raises instead of returning a failure
record — so not every orchestrator call returns a success-flagged record,
and an exception can escape the orchestrator boundary. -/
theorem c9_counterexample :
    (processTextInput exEnv exLearnState "i do wiring").1.success = none ∧
    processAudioInput exEnv exLearnState none "voice.mp3" =
      .error "Audio processor not initialized. Set use_whisper=True" :=
  ⟨rfl, rfl⟩

end SkillSync
